import Mathlib

/-!
Verification of the Pixlet pixel-art editor core (src/App.vue): grid model,
tool algorithms (brush stamping, Bresenham line interpolation, recursive
flood fill), the undo/redo history stack and the color history.

Colors are the hex strings the code stores in the grid.  A grid is embedded
as a total function from integer coordinates to colors; JavaScript's
in-place cell assignment becomes a pointwise functional update, and the
reactive refs of the component become fields of an explicit `AppState`
record.  The recursive `floodFill` is embedded with an explicit fuel
parameter (`floodFillFuel`); `floodFill` instantiates the fuel with the
number of target-colored cells, and the fuel-irrelevance theorem below
shows this is the limit of the recursion.
-/

namespace Pixlet

abbrev Color := String

/-- A grid maps (row, col) coordinates to colors (source: `grid` ref,
a `string[][]`; out-of-range reads never occur behind the bounds checks). -/
abbrev PixGrid := Int → Int → Color

/-- One cell assignment `grid.value[row][col] = v`. -/
def setCell (g : PixGrid) (row col : Int) (v : Color) : PixGrid :=
  fun i j => if i = row ∧ j = col then v else g i j

/-- `initializeGrid` fills every cell with a color (source uses '#FFFFFF'). -/
def initGrid (c : Color) : PixGrid := fun _ _ => c

/-- In-range test used by `drawPixel` and `floodFill`:
`row >= 0 && row < gridHeight && col >= 0 && col < gridWidth`. -/
abbrev inBounds (H W row col : Int) : Prop :=
  0 ≤ row ∧ row < H ∧ 0 ≤ col ∧ col < W

/-- Number of in-range cells holding color `t` (the measure that makes the
recursive flood fill well-founded). -/
def countTarget (H W : Int) (g : PixGrid) (t : Color) : Nat :=
  (((Finset.Icc 0 (H - 1)) ×ˢ (Finset.Icc 0 (W - 1))).filter
    (fun p : Int × Int => g p.1 p.2 = t)).card

/-- Source `floodFill` (recursive, 4-connected), with an explicit fuel
parameter bounding the recursion depth:

    if (targetColor === replacementColor) return;
    if (row < 0 || row >= gridHeight || col < 0 || col >= gridWidth) return;
    if (grid[row][col] !== targetColor) return;
    grid[row][col] = replacementColor;
    floodFill(row-1, col, ...); floodFill(row+1, col, ...);
    floodFill(row, col-1, ...); floodFill(row, col+1, ...);
-/
def floodFillFuel (H W : Int) :
    Nat → PixGrid → Int → Int → Color → Color → PixGrid
  | 0, g, _, _, _, _ => g
  | fuel + 1, g, row, col, target, repl =>
    if target = repl then g
    else if row < 0 ∨ H ≤ row ∨ col < 0 ∨ W ≤ col then g
    else if ¬ (g row col = target) then g
    else
      let g0 := setCell g row col repl
      let g1 := floodFillFuel H W fuel g0 (row - 1) col target repl
      let g2 := floodFillFuel H W fuel g1 (row + 1) col target repl
      let g3 := floodFillFuel H W fuel g2 row (col - 1) target repl
      floodFillFuel H W fuel g3 row (col + 1) target repl

/-- The flood fill itself: the count of target-colored cells strictly
decreases at every recursive paint, so that count is enough fuel. -/
def floodFill (H W : Int) (g : PixGrid) (row col : Int)
    (target repl : Color) : PixGrid :=
  floodFillFuel H W (countTarget H W g target) g row col target repl

/-- Offsets visited by the brush loops:
`for (let r = -offset; r < brushSize - offset; r++)` with
`offset = Math.floor(brushSize / 2)`. -/
def brushOffsets (brushSize : Int) : List Int :=
  (List.range brushSize.toNat).map (fun k : Nat => (k : Int) - brushSize / 2)

/-- The pencil/eraser stamp of `drawPixel`: the square brush loop, clamping
each cell to grid bounds. -/
def stampBrush (H W brushSize : Int) (g : PixGrid) (row col : Int)
    (color : Color) : PixGrid :=
  (brushOffsets brushSize).foldl
    (fun g1 r =>
      (brushOffsets brushSize).foldl
        (fun g2 c =>
          if 0 ≤ row + r ∧ row + r < H ∧ 0 ≤ col + c ∧ col + c < W then
            setCell g2 (row + r) (col + c) color
          else g2)
        g1)
    g

/-- Source `drawLine` loop body (Bresenham), with fuel.  Parameters
`row1 col1 dx dy sx sy` are the loop constants, `r c err` the mutable
state.  Every iteration emits the current cell first; the loop exits as
soon as the end point is reached.  The source computes `e2 = 2*err` once
and then tests `e2 > -dy` (step the column) and `e2 < dx` (step the row)
against that single value. -/
def bresLoop (row1 col1 dx dy sx sy : Int) :
    Nat → Int → Int → Int → List (Int × Int)
  | 0, r, c, _ => [(r, c)]
  | fuel + 1, r, c, err =>
    if r = row1 ∧ c = col1 then [(r, c)]
    else
      (r, c) ::
        (if 2 * err > -dy then
          if 2 * err < dx then
            bresLoop row1 col1 dx dy sx sy fuel (r + sy) (c + sx) (err - dy + dx)
          else
            bresLoop row1 col1 dx dy sx sy fuel r (c + sx) (err - dy)
        else
          if 2 * err < dx then
            bresLoop row1 col1 dx dy sx sy fuel (r + sy) c (err + dx)
          else
            bresLoop row1 col1 dx dy sx sy fuel r c err)

/-- The ordered sequence of cells `drawLine(row0, col0, row1, col1)` passes
to `drawPixel`.  A correct Bresenham walk needs exactly `max dx dy`
iterations, which is the fuel supplied; fuel-exhaustion emits the current
cell, matching the final iteration of the source loop. -/
def drawLineCells (row0 col0 row1 col1 : Int) : List (Int × Int) :=
  let dx := |col1 - col0|
  let dy := |row1 - row0|
  let sx : Int := if col0 < col1 then 1 else -1
  let sy : Int := if row0 < row1 then 1 else -1
  bresLoop row1 col1 dx dy sx sy (max dx dy).toNat row0 col0 (dx - dy)

/-- Adjacency of consecutive cells of a stroke: at most one row step and
one column step (8-connectedness of the Bresenham walk). -/
def adjCell (p q : Int × Int) : Prop :=
  (q.1 - p.1).natAbs ≤ 1 ∧ (q.2 - p.2).natAbs ≤ 1

/-- The only change a flood fill makes to a cell is repainting a
target-colored cell with the replacement color. -/
def Evolves (t rp : Color) (g g' : PixGrid) : Prop :=
  ∀ i j : Int, g' i j = g i j ∨ (g i j = t ∧ g' i j = rp)

/-- `addToColorHistory`: remove the color if present, cons it at the front,
keep the first 20. -/
def addToColorHistory (color : Color) (hist : List Color) : List Color :=
  (color :: hist.filter (fun c => c ≠ color)).take 20

/-- The four tools of `currentTool`. -/
inductive Tool
  | pencil
  | eraser
  | fill
  | eyedropper
deriving DecidableEq, Repr

/-- The component state the claims are about: grid dimensions, the grid,
the drawing state, the undo/redo history and the color history. -/
structure AppState where
  gridWidth : Int
  gridHeight : Int
  grid : PixGrid
  currentColor : Color
  currentTool : Tool
  isDrawing : Bool
  lastDrawnPos : Option (Int × Int)
  brushSize : Int
  history : List PixGrid
  historyIndex : Int
  colorHistory : List Color

/-- `MAX_HISTORY = 50`. -/
def MAX_HISTORY : Nat := 50

/-- Default grid used to totalize the history reads of `undo`/`redo`
(never reached while `0 ≤ historyIndex < history.length`). -/
def dfltGrid : PixGrid := initGrid "#FFFFFF"

/-- `saveState`: truncate the redo tail, push a snapshot of the grid, then
either evict the oldest entry (`shift()`, cursor unchanged) or advance the
cursor. -/
def saveState (s : AppState) : AppState :=
  let h := s.history.take (s.historyIndex + 1).toNat ++ [s.grid]
  if MAX_HISTORY < h.length then { s with history := h.tail }
  else { s with history := h, historyIndex := s.historyIndex + 1 }

/-- `undo`: move the cursor back one entry and restore that snapshot;
no-op at the oldest entry. -/
def undo (s : AppState) : AppState :=
  if 0 < s.historyIndex then
    { s with historyIndex := s.historyIndex - 1,
             grid := s.history.getD (s.historyIndex - 1).toNat dfltGrid }
  else s

/-- `redo`: move the cursor forward one entry and restore that snapshot;
no-op at the newest entry. -/
def redo (s : AppState) : AppState :=
  if s.historyIndex < (s.history.length : Int) - 1 then
    { s with historyIndex := s.historyIndex + 1,
             grid := s.history.getD (s.historyIndex + 1).toNat dfltGrid }
  else s

/-- The freshly mounted component: the `ref` initializers followed by
`initializeGrid` (blank grid, history reset to the single initial state). -/
def initializeGrid (H W : Int) : AppState :=
  saveState
    { gridWidth := W
      gridHeight := H
      grid := initGrid "#FFFFFF"
      currentColor := "#000000"
      currentTool := Tool.pencil
      isDrawing := false
      lastDrawnPos := none
      brushSize := 1
      history := []
      historyIndex := -1
      colorHistory := ["#000000", "#FFFFFF"] }

/-- Source `drawPixel`: bounds guard, then one branch per tool.  The fill
branch reads the clicked cell as target color, flood fills, records the
color and saves a history snapshot; the eyedropper branch picks the color
and switches back to the pencil. -/
def drawPixel (s : AppState) (row col : Int) : AppState :=
  if row < 0 ∨ s.gridHeight ≤ row ∨ col < 0 ∨ s.gridWidth ≤ col then s
  else
    match s.currentTool with
    | Tool.pencil =>
        { s with
            colorHistory := addToColorHistory s.currentColor s.colorHistory
            grid := stampBrush s.gridHeight s.gridWidth s.brushSize s.grid
                      row col s.currentColor }
    | Tool.eraser =>
        { s with
            grid := stampBrush s.gridHeight s.gridWidth s.brushSize s.grid
                      row col "#FFFFFF" }
    | Tool.fill =>
        saveState
          { s with
              grid := floodFill s.gridHeight s.gridWidth s.grid row col
                        (s.grid row col) s.currentColor
              colorHistory := addToColorHistory s.currentColor s.colorHistory }
    | Tool.eyedropper =>
        { s with currentColor := s.grid row col, currentTool := Tool.pencil }

/-- `startDrawing`: begin a gesture and stamp the first cell. -/
def startDrawing (s : AppState) (row col : Int) : AppState :=
  drawPixel { s with isDrawing := true, lastDrawnPos := some (row, col) } row col

/-- `stopDrawing`: one history snapshot if a gesture was active, then clear
the drawing state. -/
def stopDrawing (s : AppState) : AppState :=
  let s1 := if s.isDrawing then saveState s else s
  { s1 with isDrawing := false, lastDrawnPos := none }

/-- `drawLine` applies `drawPixel` to every cell of the Bresenham walk. -/
def drawLineApp (s : AppState) (row0 col0 row1 col1 : Int) : AppState :=
  (drawLineCells row0 col0 row1 col1).foldl (fun st p => drawPixel st p.1 p.2) s

/-- The drawing path of `onCanvasMouseMove` while the primary button is
held: pencil/eraser strokes interpolate a line from the last committed
cell; other tools draw nothing on move. -/
def onMouseMoveDraw (s : AppState) (row col : Int) : AppState :=
  if s.currentTool = Tool.pencil ∨ s.currentTool = Tool.eraser then
    match s.lastDrawnPos with
    | some (pr, pc) =>
        if pr ≠ row ∨ pc ≠ col then
          { drawLineApp { s with isDrawing := true } pr pc row col with
              lastDrawnPos := some (row, col) }
        else
          { s with isDrawing := true, lastDrawnPos := some (row, col) }
    | none =>
        { drawPixel { s with isDrawing := true } row col with
            lastDrawnPos := some (row, col) }
  else s

/-- One completed gesture: pointer-down at `(row, col)`, a sampled sequence
of pointer-move positions, then pointer-up. -/
def gesture (s : AppState) (row col : Int) (moves : List (Int × Int)) :
    AppState :=
  stopDrawing
    (moves.foldl (fun st p => onMouseMoveDraw st p.1 p.2)
      (startDrawing s row col))

/-- Record a sequence of edited grids, one `saveState` per edit (the shape
of the spec's "k recorded edits"). -/
def recordEdits (s : AppState) (gs : List PixGrid) : AppState :=
  gs.foldl (fun st g => saveState { st with grid := g }) s

/-- Fresh state poised for a no-op fill click: fill tool selected, active
color equal to the blank background. -/
def noopFillState : AppState :=
  { initializeGrid 8 8 with currentTool := Tool.fill, currentColor := "#FFFFFF" }

/-- Fresh state with the fill tool selected and the background as active
color, used to observe a complete fill-click gesture. -/
def fillClickState : AppState :=
  { initializeGrid 8 8 with currentTool := Tool.fill, currentColor := "#FFFFFF" }

/-- Fresh state with the eyedropper selected, used to observe a complete
eyedropper-click gesture. -/
def eyedropperClickState : AppState :=
  { initializeGrid 8 8 with currentTool := Tool.eyedropper }

/- ------------------------------------------------------------------ -/
/- Helper lemmas about the color history.                              -/
/- ------------------------------------------------------------------ -/

theorem filter_ne_erase {l : List Color} {c : Color} (h : l.Nodup) :
    l.filter (fun x => x ≠ c) = l.erase c := by
  induction l with
  | nil => rfl
  | cons a t ih =>
    rcases List.nodup_cons.mp h with ⟨hat, ht⟩
    by_cases hac : a = c
    · subst hac
      rw [List.erase_cons_head, List.filter_cons_of_neg (by simp),
        List.filter_eq_self]
      intro b hb
      simp only [decide_eq_true_eq]
      exact fun e => hat (e ▸ hb)
    · rw [List.erase_cons_tail (by simp [hac]),
        List.filter_cons_of_pos (by simp [hac]), ih ht]

theorem filter_ne_of_not_mem {l : List Color} {c : Color} (h : c ∉ l) :
    l.filter (fun x => x ≠ c) = l := by
  rw [List.filter_eq_self]
  intro b hb
  simp only [decide_eq_true_eq]
  exact fun e => h (e ▸ hb)

/- ------------------------------------------------------------------ -/
/- Helper lemmas about the flood fill.                                 -/
/- ------------------------------------------------------------------ -/
theorem evolves_refl (t rp : Color) (g : PixGrid) : Evolves t rp g g :=
  fun _ _ => Or.inl rfl

theorem evolves_trans {t rp : Color} {g1 g2 g3 : PixGrid}
    (h1 : Evolves t rp g1 g2) (h2 : Evolves t rp g2 g3) :
    Evolves t rp g1 g3 := by
  intro i j
  rcases h2 i j with h | ⟨ha, hb⟩
  · rcases h1 i j with h1' | ⟨ha', hb'⟩
    · exact Or.inl (h.trans h1')
    · exact Or.inr ⟨ha', h ▸ hb'⟩
  · rcases h1 i j with h1' | ⟨ha', hb'⟩
    · exact Or.inr ⟨h1' ▸ ha, hb⟩
    · exact Or.inr ⟨ha', hb⟩

theorem evolves_setCell {t rp : Color} {g : PixGrid} {r c : Int}
    (h : g r c = t) : Evolves t rp g (setCell g r c rp) := by
  intro i j
  by_cases hij : i = r ∧ j = c
  · exact Or.inr ⟨by rw [hij.1, hij.2]; exact h, by simp [setCell, hij]⟩
  · exact Or.inl (by simp [setCell, hij])

theorem evolves_done {t rp : Color} {g g' : PixGrid} {i j : Int}
    (h : Evolves t rp g g') (hne : g i j ≠ t) : g' i j ≠ t := by
  rcases h i j with h1 | ⟨h1, _⟩
  · rw [h1]; exact hne
  · exact absurd h1 hne

theorem evolves_painted {t rp : Color} {g g' : PixGrid} {i j : Int}
    (h : Evolves t rp g g') (hp : g i j = rp) : g' i j = rp := by
  rcases h i j with h1 | ⟨h1, h2⟩
  · rw [h1, hp]
  · exact h2

theorem ffFuel_evolves (H W : Int) (t rp : Color) :
    ∀ (fuel : Nat) (g : PixGrid) (r c : Int),
      Evolves t rp g (floodFillFuel H W fuel g r c t rp) := by
  intro fuel
  induction fuel with
  | zero => intro g r c; exact evolves_refl t rp g
  | succ fuel ih =>
    intro g r c
    rw [floodFillFuel]
    by_cases h1 : t = rp
    · rw [if_pos h1]; exact evolves_refl t rp g
    · rw [if_neg h1]
      by_cases h2 : r < 0 ∨ H ≤ r ∨ c < 0 ∨ W ≤ c
      · rw [if_pos h2]; exact evolves_refl t rp g
      · rw [if_neg h2]
        by_cases h3 : ¬ (g r c = t)
        · rw [if_pos h3]; exact evolves_refl t rp g
        · rw [if_neg h3]
          push_neg at h3
          exact evolves_trans (evolves_setCell h3)
            (evolves_trans (ih _ _ _)
              (evolves_trans (ih _ _ _) (evolves_trans (ih _ _ _) (ih _ _ _))))


theorem mem_targetSet {H W : Int} {g : PixGrid} {t : Color} {p : Int × Int} :
    p ∈ ((Finset.Icc 0 (H - 1)) ×ˢ (Finset.Icc 0 (W - 1))).filter
      (fun p : Int × Int => g p.1 p.2 = t)
    ↔ (inBounds H W p.1 p.2 ∧ g p.1 p.2 = t) := by
  rw [Finset.mem_filter, Finset.mem_product, Finset.mem_Icc, Finset.mem_Icc]
  constructor
  · rintro ⟨⟨⟨a1, a2⟩, a3, a4⟩, h⟩
    exact ⟨⟨a1, by omega, a3, by omega⟩, h⟩
  · rintro ⟨⟨a1, a2, a3, a4⟩, h⟩
    exact ⟨⟨⟨a1, by omega⟩, a3, by omega⟩, h⟩

theorem countTarget_pos {H W : Int} {g : PixGrid} {t : Color} {r c : Int}
    (hb : inBounds H W r c) (ht : g r c = t) :
    0 < countTarget H W g t := by
  rw [countTarget]
  exact Finset.card_pos.mpr ⟨(r, c), mem_targetSet.mpr ⟨hb, ht⟩⟩

theorem countTarget_eq_zero_no_target {H W : Int} {g : PixGrid} {t : Color}
    (h : countTarget H W g t = 0) {i j : Int} (hb : inBounds H W i j) :
    g i j ≠ t := by
  intro ht
  have := countTarget_pos hb ht
  omega

theorem countTarget_le_of_evolves {H W : Int} {t rp : Color} {g g' : PixGrid}
    (h : Evolves t rp g g') :
    countTarget H W g' t ≤ countTarget H W g t := by
  apply Finset.card_le_card
  intro p hp
  rw [mem_targetSet] at hp ⊢
  refine ⟨hp.1, ?_⟩
  rcases h p.1 p.2 with h1 | ⟨h1, _⟩
  · rw [← h1]; exact hp.2
  · exact h1

theorem countTarget_setCell_lt {H W : Int} {g : PixGrid} {t rp : Color}
    {r c : Int} (hb : inBounds H W r c) (ht : g r c = t) (hne : t ≠ rp) :
    countTarget H W (setCell g r c rp) t < countTarget H W g t := by
  have hset : ((Finset.Icc 0 (H - 1)) ×ˢ (Finset.Icc 0 (W - 1))).filter
        (fun p : Int × Int => setCell g r c rp p.1 p.2 = t)
      = (((Finset.Icc 0 (H - 1)) ×ˢ (Finset.Icc 0 (W - 1))).filter
        (fun p : Int × Int => g p.1 p.2 = t)).erase (r, c) := by
    ext p
    rw [Finset.mem_erase, mem_targetSet, mem_targetSet]
    by_cases hp : p = (r, c)
    · subst hp
      show (inBounds H W r c ∧ setCell g r c rp r c = t) ↔
        ((r, c) ≠ (r, c) ∧ inBounds H W r c ∧ g r c = t)
      rw [show setCell g r c rp r c = rp from by simp [setCell]]
      constructor
      · rintro ⟨_, h⟩
        exact absurd h.symm hne
      · rintro ⟨h, _⟩
        exact absurd rfl h
    · have hp2 : ¬ (p.1 = r ∧ p.2 = c) := by
        intro hcc
        exact hp (Prod.ext hcc.1 hcc.2)
      simp only [setCell, if_neg hp2]
      tauto
  rw [countTarget, countTarget, hset]
  have hmem : (r, c) ∈ ((Finset.Icc 0 (H - 1)) ×ˢ (Finset.Icc 0 (W - 1))).filter
      (fun p : Int × Int => g p.1 p.2 = t) := mem_targetSet.mpr ⟨hb, ht⟩
  have := Finset.card_erase_of_mem hmem
  have hpos : 0 < (((Finset.Icc 0 (H - 1)) ×ˢ (Finset.Icc 0 (W - 1))).filter
      (fun p : Int × Int => g p.1 p.2 = t)).card := Finset.card_pos.mpr ⟨_, hmem⟩
  omega


theorem not_guard_inBounds {H W r c : Int}
    (h : ¬ (r < 0 ∨ H ≤ r ∨ c < 0 ∨ W ≤ c)) : inBounds H W r c := by
  push_neg at h
  exact ⟨by omega, by omega, by omega, by omega⟩

theorem ffFuel_succ_stable (H W : Int) (t rp : Color) :
    ∀ (fuel : Nat) (g : PixGrid) (r c : Int),
      countTarget H W g t ≤ fuel →
      floodFillFuel H W (fuel + 1) g r c t rp
        = floodFillFuel H W fuel g r c t rp := by
  intro fuel
  induction fuel with
  | zero =>
    intro g r c hcnt
    conv_lhs => rw [floodFillFuel]
    by_cases h1 : t = rp
    · rw [if_pos h1]; rfl
    · rw [if_neg h1]
      by_cases h2 : r < 0 ∨ H ≤ r ∨ c < 0 ∨ W ≤ c
      · rw [if_pos h2]; rfl
      · rw [if_neg h2]
        by_cases h3 : ¬ (g r c = t)
        · rw [if_pos h3]; rfl
        · push_neg at h3
          exfalso
          have := countTarget_pos (not_guard_inBounds h2) h3
          omega
  | succ fuel ih =>
    intro g r c hcnt
    rw [floodFillFuel]
    conv_rhs => rw [floodFillFuel]
    by_cases h1 : t = rp
    · simp only [if_pos h1]
    · simp only [if_neg h1]
      by_cases h2 : r < 0 ∨ H ≤ r ∨ c < 0 ∨ W ≤ c
      · simp only [if_pos h2]
      · simp only [if_neg h2]
        by_cases h3 : ¬ (g r c = t)
        · simp only [if_pos h3]
        · simp only [if_neg h3]
          push_neg at h3
          have hb := not_guard_inBounds h2
          have hc0 : countTarget H W (setCell g r c rp) t ≤ fuel := by
            have := countTarget_setCell_lt hb h3 h1
            omega
          have e1 := ih (setCell g r c rp) (r - 1) c hc0
          have hc1 : countTarget H W
              (floodFillFuel H W fuel (setCell g r c rp) (r - 1) c t rp) t ≤ fuel :=
            le_trans (countTarget_le_of_evolves (ffFuel_evolves H W t rp fuel _ _ _)) hc0
          have e2 := ih _ (r + 1) c hc1
          have hc2 : countTarget H W
              (floodFillFuel H W fuel
                (floodFillFuel H W fuel (setCell g r c rp) (r - 1) c t rp)
                (r + 1) c t rp) t ≤ fuel :=
            le_trans (countTarget_le_of_evolves (ffFuel_evolves H W t rp fuel _ _ _)) hc1
          have e3 := ih _ r (c - 1) hc2
          have hc3 : countTarget H W
              (floodFillFuel H W fuel
                (floodFillFuel H W fuel
                  (floodFillFuel H W fuel (setCell g r c rp) (r - 1) c t rp)
                  (r + 1) c t rp) r (c - 1) t rp) t ≤ fuel :=
            le_trans (countTarget_le_of_evolves (ffFuel_evolves H W t rp fuel _ _ _)) hc2
          have e4 := ih _ r (c + 1) hc3
          show floodFillFuel H W (fuel + 1)
              (floodFillFuel H W (fuel + 1)
                (floodFillFuel H W (fuel + 1)
                  (floodFillFuel H W (fuel + 1) (setCell g r c rp) (r - 1) c t rp)
                  (r + 1) c t rp) r (c - 1) t rp) r (c + 1) t rp
            = floodFillFuel H W fuel
              (floodFillFuel H W fuel
                (floodFillFuel H W fuel
                  (floodFillFuel H W fuel (setCell g r c rp) (r - 1) c t rp)
                  (r + 1) c t rp) r (c - 1) t rp) r (c + 1) t rp
          rw [e1, e2, e3, e4]


theorem ffFuel_add_stable (H W : Int) (t rp : Color) :
    ∀ (k fuel : Nat) (g : PixGrid) (r c : Int),
      countTarget H W g t ≤ fuel →
      floodFillFuel H W (fuel + k) g r c t rp
        = floodFillFuel H W fuel g r c t rp := by
  intro k
  induction k with
  | zero => intro fuel g r c _; rfl
  | succ k ih =>
    intro fuel g r c hcnt
    have h1 : fuel + (k + 1) = (fuel + k) + 1 := by omega
    rw [h1, ffFuel_succ_stable H W t rp (fuel + k) g r c (by omega), ih fuel g r c hcnt]

theorem floodFill_fuel_irrelevant (H W : Int) (g : PixGrid) (r c : Int)
    (t rp : Color) (fuel : Nat) (hcnt : countTarget H W g t ≤ fuel) :
    floodFillFuel H W fuel g r c t rp = floodFill H W g r c t rp := by
  rw [floodFill]
  have h1 : fuel = countTarget H W g t + (fuel - countTarget H W g t) := by omega
  rw [h1]
  exact ffFuel_add_stable H W t rp _ _ g r c (le_refl _)


theorem ffFuel_guard_eq (H W : Int) (t rp : Color) (fuel : Nat) (g : PixGrid)
    (r c : Int)
    (h : t = rp ∨ (r < 0 ∨ H ≤ r ∨ c < 0 ∨ W ≤ c) ∨ ¬ (g r c = t)) :
    floodFillFuel H W fuel g r c t rp = g := by
  cases fuel with
  | zero => rfl
  | succ fuel =>
    rw [floodFillFuel]
    by_cases h1 : t = rp
    · rw [if_pos h1]
    · rw [if_neg h1]
      by_cases h2 : r < 0 ∨ H ≤ r ∨ c < 0 ∨ W ≤ c
      · rw [if_pos h2]
      · rw [if_neg h2]
        by_cases h3 : ¬ (g r c = t)
        · rw [if_pos h3]
        · exfalso
          rcases h with h | h | h
          · exact h1 h
          · exact h2 h
          · exact h3 h

theorem ffFuel_succ_main (H W : Int) (t rp : Color) (fuel : Nat) (g : PixGrid)
    (r c : Int) (h1 : ¬ t = rp) (h2 : ¬ (r < 0 ∨ H ≤ r ∨ c < 0 ∨ W ≤ c))
    (h3 : g r c = t) :
    floodFillFuel H W (fuel + 1) g r c t rp
      = floodFillFuel H W fuel
          (floodFillFuel H W fuel
            (floodFillFuel H W fuel
              (floodFillFuel H W fuel (setCell g r c rp) (r - 1) c t rp)
              (r + 1) c t rp) r (c - 1) t rp) r (c + 1) t rp := by
  conv_lhs => rw [floodFillFuel]
  rw [if_neg h1, if_neg h2, if_neg (not_not_intro h3)]


theorem ffFuel_good (H W : Int) (t rp : Color) (hne : t ≠ rp) :
    ∀ (fuel : Nat) (g : PixGrid) (r c : Int),
      countTarget H W g t ≤ fuel →
      ((inBounds H W r c → g r c = t →
          floodFillFuel H W fuel g r c t rp r c = rp)
      ∧ (∀ i j : Int, g i j = t →
          floodFillFuel H W fuel g r c t rp i j = rp →
          ∀ i2 j2 : Int, inBounds H W i2 j2 →
          ((i2 = i - 1 ∧ j2 = j) ∨ (i2 = i + 1 ∧ j2 = j) ∨
            (i2 = i ∧ j2 = j - 1) ∨ (i2 = i ∧ j2 = j + 1)) →
          floodFillFuel H W fuel g r c t rp i2 j2 ≠ t)) := by
  intro fuel
  induction fuel with
  | zero =>
    intro g r c hcnt
    constructor
    · intro hb hgt
      exact absurd hgt (countTarget_eq_zero_no_target (by omega) hb)
    · intro i j hgt hrp
      have hrp2 : g i j = rp := hrp
      exact absurd (hgt.symm.trans hrp2) hne
  | succ fuel ih =>
    intro g r c hcnt
    by_cases h2 : r < 0 ∨ H ≤ r ∨ c < 0 ∨ W ≤ c
    · rw [ffFuel_guard_eq H W t rp _ g r c (Or.inr (Or.inl h2))]
      constructor
      · intro hb _
        exfalso
        obtain ⟨b1, b2, b3, b4⟩ := hb
        omega
      · intro i j hgt hrp
        exact absurd (hgt.symm.trans hrp) hne
    · by_cases h3 : ¬ (g r c = t)
      · rw [ffFuel_guard_eq H W t rp _ g r c (Or.inr (Or.inr h3))]
        constructor
        · intro _ hgt
          exact absurd hgt h3
        · intro i j hgt hrp
          exact absurd (hgt.symm.trans hrp) hne
      · push_neg at h3
        have hb := not_guard_inBounds h2
        rw [ffFuel_succ_main H W t rp fuel g r c hne h2 h3]
        have hcnt0 : countTarget H W (setCell g r c rp) t ≤ fuel := by
          have := countTarget_setCell_lt hb h3 hne
          omega
        have E1 := ffFuel_evolves H W t rp fuel (setCell g r c rp) (r - 1) c
        have ih1 := ih (setCell g r c rp) (r - 1) c hcnt0
        have hcnt1 : countTarget H W
            (floodFillFuel H W fuel (setCell g r c rp) (r - 1) c t rp) t ≤ fuel :=
          le_trans (countTarget_le_of_evolves E1) hcnt0
        have E2 := ffFuel_evolves H W t rp fuel
          (floodFillFuel H W fuel (setCell g r c rp) (r - 1) c t rp) (r + 1) c
        have ih2 := ih _ (r + 1) c hcnt1
        have hcnt2 : countTarget H W
            (floodFillFuel H W fuel
              (floodFillFuel H W fuel (setCell g r c rp) (r - 1) c t rp)
              (r + 1) c t rp) t ≤ fuel :=
          le_trans (countTarget_le_of_evolves E2) hcnt1
        have E3 := ffFuel_evolves H W t rp fuel
          (floodFillFuel H W fuel
            (floodFillFuel H W fuel (setCell g r c rp) (r - 1) c t rp)
            (r + 1) c t rp) r (c - 1)
        have ih3 := ih _ r (c - 1) hcnt2
        have hcnt3 : countTarget H W
            (floodFillFuel H W fuel
              (floodFillFuel H W fuel
                (floodFillFuel H W fuel (setCell g r c rp) (r - 1) c t rp)
                (r + 1) c t rp) r (c - 1) t rp) t ≤ fuel :=
          le_trans (countTarget_le_of_evolves E3) hcnt2
        have E4 := ffFuel_evolves H W t rp fuel
          (floodFillFuel H W fuel
            (floodFillFuel H W fuel
              (floodFillFuel H W fuel (setCell g r c rp) (r - 1) c t rp)
              (r + 1) c t rp) r (c - 1) t rp) r (c + 1)
        have ih4 := ih _ r (c + 1) hcnt3
        set g0 := setCell g r c rp with hg0
        set g1 := floodFillFuel H W fuel g0 (r - 1) c t rp with hg1
        set g2 := floodFillFuel H W fuel g1 (r + 1) c t rp with hg2
        set g3 := floodFillFuel H W fuel g2 r (c - 1) t rp with hg3
        set g4 := floodFillFuel H W fuel g3 r (c + 1) t rp with hg4
        have hstart : g0 r c = rp := by simp [hg0, setCell]
        have hg4start : g4 r c = rp :=
          evolves_painted E4 (evolves_painted E3 (evolves_painted E2
            (evolves_painted E1 hstart)))
        constructor
        · intro _ _
          exact hg4start
        · intro i j hgt hrp i2 j2 hb2 hadj
          by_cases hij : i = r ∧ j = c
          · -- the start cell: each neighbor is settled by its own subcall
            obtain ⟨rfl, rfl⟩ := hij
            rcases hadj with ⟨e1, e2⟩ | ⟨e1, e2⟩ | ⟨e1, e2⟩ | ⟨e1, e2⟩ <;>
              rw [e1, e2] at hb2 ⊢
            · by_cases hn : g0 (i - 1) j = t
              · have hp1 : g1 (i - 1) j = rp := ih1.1 hb2 hn
                have hfin : g4 (i - 1) j = rp :=
                  evolves_painted E4 (evolves_painted E3 (evolves_painted E2 hp1))
                rw [hfin]
                exact Ne.symm hne
              · exact evolves_done E4 (evolves_done E3 (evolves_done E2
                  (evolves_done E1 hn)))
            · by_cases hn : g1 (i + 1) j = t
              · have hp2 : g2 (i + 1) j = rp := ih2.1 hb2 hn
                have hfin : g4 (i + 1) j = rp :=
                  evolves_painted E4 (evolves_painted E3 hp2)
                rw [hfin]
                exact Ne.symm hne
              · exact evolves_done E4 (evolves_done E3 (evolves_done E2 hn))
            · by_cases hn : g2 i (j - 1) = t
              · have hp3 : g3 i (j - 1) = rp := ih3.1 hb2 hn
                have hfin : g4 i (j - 1) = rp := evolves_painted E4 hp3
                rw [hfin]
                exact Ne.symm hne
              · exact evolves_done E4 (evolves_done E3 hn)
            · by_cases hn : g3 i (j + 1) = t
              · have hp4 : g4 i (j + 1) = rp := ih4.1 hb2 hn
                rw [hp4]
                exact Ne.symm hne
              · exact evolves_done E4 hn
          · -- a cell painted by one of the four subcalls
            have h0t : g0 i j = t := by
              rw [hg0]
              simp only [setCell, if_neg hij]
              exact hgt
            by_cases p1 : g1 i j = rp
            · exact evolves_done E4 (evolves_done E3 (evolves_done E2
                (ih1.2 i j h0t p1 i2 j2 hb2 hadj)))
            · have h1t : g1 i j = t := by
                rcases E1 i j with h | ⟨_, hbad⟩
                · rw [h]; exact h0t
                · exact absurd hbad p1
              by_cases p2 : g2 i j = rp
              · exact evolves_done E4 (evolves_done E3
                  (ih2.2 i j h1t p2 i2 j2 hb2 hadj))
              · have h2t : g2 i j = t := by
                  rcases E2 i j with h | ⟨_, hbad⟩
                  · rw [h]; exact h1t
                  · exact absurd hbad p2
                by_cases p3 : g3 i j = rp
                · exact evolves_done E4 (ih3.2 i j h2t p3 i2 j2 hb2 hadj)
                · have h3t : g3 i j = t := by
                    rcases E3 i j with h | ⟨_, hbad⟩
                    · rw [h]; exact h2t
                    · exact absurd hbad p3
                  exact ih4.2 i j h3t hrp i2 j2 hb2 hadj


theorem fill_uniform_all (n : Int) (t rp : Color) (hne : t ≠ rp)
    (r c : Int) (hrc : inBounds n n r c) :
    ∀ (d : Nat) (i j : Int), inBounds n n i j →
      ((i - r).natAbs + (j - c).natAbs) = d →
      floodFill n n (initGrid t) r c t rp i j = rp := by
  intro d
  induction d using Nat.strong_induction_on with
  | _ d ih =>
    intro i j hbij hd
    have good := ffFuel_good n n t rp hne (countTarget n n (initGrid t) t)
      (initGrid t) r c (le_refl _)
    by_cases h0 : i = r ∧ j = c
    · rw [floodFill, h0.1, h0.2]
      exact good.1 hrc rfl
    · have key : ∃ i2 j2 : Int, inBounds n n i2 j2
          ∧ ((i2 - r).natAbs + (j2 - c).natAbs) < d
          ∧ ((i = i2 - 1 ∧ j = j2) ∨ (i = i2 + 1 ∧ j = j2)
            ∨ (i = i2 ∧ j = j2 - 1) ∨ (i = i2 ∧ j = j2 + 1)) := by
        obtain ⟨a1, a2, a3, a4⟩ := hbij
        obtain ⟨b1, b2, b3, b4⟩ := hrc
        by_cases hir : i = r
        · have hjc : j ≠ c := fun hc => h0 ⟨hir, hc⟩
          rcases lt_or_gt_of_ne hjc with hlt | hgt
          · exact ⟨i, j + 1, ⟨by omega, by omega, by omega, by omega⟩,
              by omega, Or.inr (Or.inr (Or.inl ⟨rfl, by omega⟩))⟩
          · exact ⟨i, j - 1, ⟨by omega, by omega, by omega, by omega⟩,
              by omega, Or.inr (Or.inr (Or.inr ⟨rfl, by omega⟩))⟩
        · rcases lt_or_gt_of_ne hir with hlt | hgt
          · exact ⟨i + 1, j, ⟨by omega, by omega, by omega, by omega⟩,
              by omega, Or.inl ⟨by omega, rfl⟩⟩
          · exact ⟨i - 1, j, ⟨by omega, by omega, by omega, by omega⟩,
              by omega, Or.inr (Or.inl ⟨by omega, rfl⟩)⟩
      obtain ⟨i2, j2, hb2, hlt2, hpat⟩ := key
      have hpainted : floodFill n n (initGrid t) r c t rp i2 j2 = rp :=
        ih _ hlt2 i2 j2 hb2 rfl
      have hnt : floodFill n n (initGrid t) r c t rp i j ≠ t := by
        rw [floodFill] at hpainted ⊢
        refine good.2 i2 j2 rfl hpainted i j hbij ?_
        rcases hpat with ⟨e1, e2⟩ | ⟨e1, e2⟩ | ⟨e1, e2⟩ | ⟨e1, e2⟩
        · exact Or.inl ⟨e1, e2⟩
        · exact Or.inr (Or.inl ⟨e1, e2⟩)
        · exact Or.inr (Or.inr (Or.inl ⟨e1, e2⟩))
        · exact Or.inr (Or.inr (Or.inr ⟨e1, e2⟩))
      rcases (ffFuel_evolves n n t rp (countTarget n n (initGrid t) t)
          (initGrid t) r c) i j with h | ⟨_, h⟩
      · exact absurd h hnt
      · exact h

/-- Claim C9: on an n-by-n single-color grid with n between 8 and 64,
flood filling from any in-range cell (in particular any interior cell)
with a different replacement color recolors every one of the n*n cells. -/
theorem fill_uniform_grid (n : Int) (h8 : 8 ≤ n) (h64 : n ≤ 64)
    (t rp : Color) (hne : rp ≠ t) (r c : Int) (hrc : inBounds n n r c)
    (i j : Int) (hij : inBounds n n i j) :
    floodFill n n (initGrid t) r c t rp i j = rp :=
  fill_uniform_all n t rp (Ne.symm hne) r c hrc
    ((i - r).natAbs + (j - c).natAbs) i j hij rfl

/-- Concrete instantiation of the uniform-fill theorem: filling the blank
8x8 grid with black from (3,3) recolors the far corner (7,7). -/
theorem fill_uniform_grid_witness :
    ((8 : Int) ≤ 8 ∧ (8 : Int) ≤ 64 ∧ ("#000000" : Color) ≠ "#FFFFFF"
      ∧ inBounds 8 8 3 3 ∧ inBounds 8 8 7 7)
  ∧ floodFill 8 8 (initGrid "#FFFFFF") 3 3 "#FFFFFF" "#000000" 7 7 = "#000000" :=
  ⟨⟨by decide, by decide, by decide, by decide, by decide⟩,
    fill_uniform_grid 8 (by decide) (by decide) "#FFFFFF" "#000000" (by decide)
      3 3 (by decide) 7 7 (by decide)⟩


/-- Claim C10: the fueled embedding of the recursive flood fill is
independent of the fuel once the fuel reaches the number of target-colored
cells (so `floodFill`, which supplies exactly that count, is the limit of
the recursion and the recursion terminates), and each recursive paint
strictly decreases the number of target-colored cells, which is the
well-founded measure. -/
theorem floodFill_termination :
    (∀ (H W : Int) (g : PixGrid) (r c : Int) (t rp : Color) (fuel : Nat),
        countTarget H W g t ≤ fuel →
        floodFillFuel H W fuel g r c t rp = floodFill H W g r c t rp)
  ∧ (∀ (H W : Int) (g : PixGrid) (i j : Int) (t rp : Color),
        inBounds H W i j → g i j = t → t ≠ rp →
        countTarget H W (setCell g i j rp) t < countTarget H W g t) :=
  ⟨fun H W g r c t rp fuel h => floodFill_fuel_irrelevant H W g r c t rp fuel h,
    fun _ _ _ _ _ _ _ hb ht hne => countTarget_setCell_lt hb ht hne⟩

/-- Concrete instantiation of the termination theorem on a 2x2 grid. -/
theorem floodFill_termination_witness :
    (countTarget 2 2 (initGrid "a") "a" ≤ 7
      ∧ inBounds 2 2 0 0 ∧ initGrid "a" 0 0 = "a" ∧ ("a" : Color) ≠ "b")
  ∧ floodFillFuel 2 2 7 (initGrid "a") 0 0 "a" "b"
      = floodFill 2 2 (initGrid "a") 0 0 "a" "b"
  ∧ countTarget 2 2 (setCell (initGrid "a") 0 0 "b") "a"
      < countTarget 2 2 (initGrid "a") "a" :=
  ⟨⟨by decide, by decide, rfl, by decide⟩,
    floodFill_termination.1 2 2 (initGrid "a") 0 0 "a" "b" 7 (by decide),
    floodFill_termination.2 2 2 (initGrid "a") 0 0 "a" "b" (by decide) rfl
      (by decide)⟩

/- ------------------------------------------------------------------ -/
/- Helper lemmas about the history stack.                              -/
/- ------------------------------------------------------------------ -/
theorem saveState_step (s : AppState)
    (hidx : s.historyIndex = (s.history.length : Int) - 1)
    (h1 : 1 ≤ s.history.length) (h50 : s.history.length ≤ 50) :
    (saveState s).history
        = (s.history ++ [s.grid]).drop (s.history.length + 1 - 50)
    ∧ (saveState s).historyIndex
        = ((min (s.history.length + 1) 50 : Nat) : Int) - 1
    ∧ (saveState s).grid = s.grid
    ∧ (saveState s).history.length = min (s.history.length + 1) 50 := by
  have htake : s.history.take (s.historyIndex + 1).toNat = s.history := by
    have : (s.historyIndex + 1).toNat = s.history.length := by omega
    rw [this, List.take_length]
  rw [saveState, htake]
  by_cases hfull : s.history.length = 50
  · rw [if_pos (by simp [MAX_HISTORY]; omega)]
    refine ⟨?_, ?_, rfl, ?_⟩
    · rw [show s.history.length + 1 - 50 = 1 by omega, List.drop_one]
    · simp only []
      rw [hidx]
      omega
    · show ((s.history ++ [s.grid]).tail).length = min (s.history.length + 1) 50
      rw [List.length_tail, List.length_append]
      simp only [List.length_singleton]
      omega
  · rw [if_neg (by simp [MAX_HISTORY]; omega)]
    refine ⟨?_, ?_, rfl, ?_⟩
    · rw [show s.history.length + 1 - 50 = 0 by omega, List.drop_zero]
    · simp only []
      rw [hidx]
      push_cast
      omega
    · simp only [List.length_append, List.length_singleton]
      omega


theorem drop_append_drop (d1 : Nat) (A B : List PixGrid) (h : d1 ≤ A.length)
    (D : Nat) : (A.drop d1 ++ B).drop D = (A ++ B).drop (d1 + D) := by
  rw [← List.drop_append_of_le_length h, List.drop_drop]

theorem recordEdits_spec :
    ∀ (gs : List PixGrid) (s : AppState),
      s.historyIndex = (s.history.length : Int) - 1 →
      1 ≤ s.history.length → s.history.length ≤ 50 →
      (recordEdits s gs).history
          = (s.history ++ gs).drop (s.history.length + gs.length - 50)
      ∧ (recordEdits s gs).historyIndex
          = ((min (s.history.length + gs.length) 50 : Nat) : Int) - 1
      ∧ (recordEdits s gs).grid = gs.getLastD s.grid
      ∧ (recordEdits s gs).history.length
          = min (s.history.length + gs.length) 50 := by
  intro gs
  induction gs with
  | nil =>
    intro s hidx h1 h50
    simp only [recordEdits, List.foldl_nil, List.length_nil, Nat.add_zero,
      List.append_nil, List.getLastD_nil]
    refine ⟨?_, ?_, trivial, ?_⟩
    · rw [show s.history.length - 50 = 0 by omega, List.drop_zero]
    · rw [hidx, show min s.history.length 50 = s.history.length by omega]
    · omega
  | cons g gs ih =>
    intro s hidx h1 h50
    have hrec : recordEdits s (g :: gs)
        = recordEdits (saveState { s with grid := g }) gs := rfl
    obtain ⟨e1, e2, e3, e4⟩ := saveState_step { s with grid := g } hidx h1 h50
    have e1' : (saveState { s with grid := g }).history
        = (s.history ++ [g]).drop (s.history.length + 1 - 50) := e1
    have e2' : (saveState { s with grid := g }).historyIndex
        = ((min (s.history.length + 1) 50 : Nat) : Int) - 1 := e2
    have e3' : (saveState { s with grid := g }).grid = g := e3
    have e4' : (saveState { s with grid := g }).history.length
        = min (s.history.length + 1) 50 := e4
    obtain ⟨f1, f2, f3, f4⟩ := ih (saveState { s with grid := g })
      (by rw [e2', e4']) (by rw [e4']; omega) (by rw [e4']; omega)
    rw [hrec]
    refine ⟨?_, ?_, ?_, ?_⟩
    · rw [f1, e4', e1',
        drop_append_drop _ _ _
          (by rw [List.length_append, List.length_singleton]; omega) _]
      rw [List.append_assoc]
      show (s.history ++ g :: gs).drop _ = (s.history ++ g :: gs).drop _
      congr 1
      simp only [List.length_cons]
      omega
    · rw [f2, e4']
      congr 2
      simp only [List.length_cons]
      omega
    · rw [f3, e3']
      simp only [List.getLastD_cons]
    · rw [f4, e4']
      simp only [List.length_cons]
      omega


theorem undo_iterate :
    ∀ (k : Nat) (s : AppState), (k : Int) ≤ s.historyIndex →
      (undo^[k] s).history = s.history
      ∧ (undo^[k] s).historyIndex = s.historyIndex - k
      ∧ (undo^[k] s).grid
          = if k = 0 then s.grid
            else s.history.getD (s.historyIndex - k).toNat dfltGrid := by
  intro k
  induction k with
  | zero =>
    intro s _
    rw [Function.iterate_zero_apply]
    refine ⟨rfl, by push_cast; omega, ?_⟩
    rw [if_pos rfl]
  | succ k ih =>
    intro s hk
    rw [Function.iterate_succ_apply]
    have hpos : 0 < s.historyIndex := by
      have h2 : ((k : Int) + 1) ≤ s.historyIndex := by push_cast at hk ⊢; omega
      omega
    have hundo : undo s
        = { s with
              historyIndex := s.historyIndex - 1
              grid := s.history.getD (s.historyIndex - 1).toNat dfltGrid } := by
      rw [undo, if_pos hpos]
    obtain ⟨f1, f2, f3⟩ := ih (undo s)
      (by rw [hundo]
          show (k : Int) ≤ s.historyIndex - 1
          push_cast at hk ⊢
          omega)
    refine ⟨?_, ?_, ?_⟩
    · rw [f1, hundo]
    · rw [f2, hundo]
      show s.historyIndex - 1 - (k : Int) = s.historyIndex - ((k : Nat) + 1 : Nat)
      push_cast
      omega
    · rw [f3]
      by_cases hk0 : k = 0
      · subst hk0
        rw [if_pos rfl, if_neg (by omega), hundo,
          show s.historyIndex - ((0 : Nat) + 1 : Nat) = s.historyIndex - 1 by
            push_cast; omega]
      · rw [if_neg hk0, if_neg (by omega), hundo]
        show s.history.getD (s.historyIndex - 1 - (k : Int)).toNat dfltGrid
          = s.history.getD (s.historyIndex - ((k : Nat) + 1 : Nat)).toNat dfltGrid
        congr 2
        push_cast
        omega

theorem redo_iterate :
    ∀ (k : Nat) (s : AppState),
      s.historyIndex + k ≤ (s.history.length : Int) - 1 →
      (redo^[k] s).history = s.history
      ∧ (redo^[k] s).historyIndex = s.historyIndex + k
      ∧ (redo^[k] s).grid
          = if k = 0 then s.grid
            else s.history.getD (s.historyIndex + k).toNat dfltGrid := by
  intro k
  induction k with
  | zero =>
    intro s _
    rw [Function.iterate_zero_apply]
    refine ⟨rfl, by push_cast; omega, ?_⟩
    rw [if_pos rfl]
  | succ k ih =>
    intro s hk
    rw [Function.iterate_succ_apply]
    have hlt : s.historyIndex < (s.history.length : Int) - 1 := by
      push_cast at hk
      omega
    have hredo : redo s
        = { s with
              historyIndex := s.historyIndex + 1
              grid := s.history.getD (s.historyIndex + 1).toNat dfltGrid } := by
      rw [redo, if_pos hlt]
    obtain ⟨f1, f2, f3⟩ := ih (redo s)
      (by rw [hredo]
          show s.historyIndex + 1 + (k : Int) ≤ (s.history.length : Int) - 1
          push_cast at hk ⊢
          omega)
    refine ⟨?_, ?_, ?_⟩
    · rw [f1, hredo]
    · rw [f2, hredo]
      show s.historyIndex + 1 + (k : Int) = s.historyIndex + ((k : Nat) + 1 : Nat)
      push_cast
      omega
    · rw [f3]
      by_cases hk0 : k = 0
      · subst hk0
        rw [if_pos rfl, if_neg (by omega), hredo,
          show s.historyIndex + ((0 : Nat) + 1 : Nat) = s.historyIndex + 1 by
            push_cast; omega]
      · rw [if_neg hk0, if_neg (by omega), hredo]
        show s.history.getD (s.historyIndex + 1 + (k : Int)).toNat dfltGrid
          = s.history.getD (s.historyIndex + ((k : Nat) + 1 : Nat)).toNat dfltGrid
        congr 2
        push_cast
        omega


theorem getD_length_sub_one :
    ∀ (l : List PixGrid) (d e : PixGrid), l ≠ [] →
      l.getD (l.length - 1) d = l.getLastD e := by
  intro l
  induction l with
  | nil => intro d e h; exact absurd rfl h
  | cons a t ih =>
    intro d e h
    cases t with
    | nil => rfl
    | cons b t2 =>
      rw [List.getLastD_cons,
        show (a :: b :: t2).length - 1 = ((b :: t2).length - 1) + 1 by
          simp only [List.length_cons]; omega,
        List.getD_cons_succ]
      exact ih d a (by simp)

theorem initializeGrid_facts (H W : Int) :
    (initializeGrid H W).history = [initGrid "#FFFFFF"]
    ∧ (initializeGrid H W).historyIndex = 0
    ∧ (initializeGrid H W).grid = initGrid "#FFFFFF" := ⟨rfl, rfl, rfl⟩

/-- Claim C6: starting from the freshly initialized history (one blank
entry), recording k edited grids (k below 50) and then undoing k times
restores the blank grid; redoing k times after that restores the final
edited grid exactly; undo is a no-op at the oldest entry and redo is a
no-op at the newest entry. -/
theorem history_undo_redo (H W : Int) (gs : List PixGrid)
    (hk : gs.length < 50) :
    ((undo^[gs.length] (recordEdits (initializeGrid H W) gs)).grid
        = initGrid "#FFFFFF")
  ∧ ((redo^[gs.length]
        (undo^[gs.length] (recordEdits (initializeGrid H W) gs))).grid
      = (recordEdits (initializeGrid H W) gs).grid)
  ∧ (∀ s : AppState, s.historyIndex ≤ 0 → undo s = s)
  ∧ (∀ s : AppState, (s.history.length : Int) - 1 ≤ s.historyIndex →
      redo s = s) := by
  obtain ⟨hh, hi, hg⟩ := initializeGrid_facts H W
  obtain ⟨r1, r2, r3, r4⟩ := recordEdits_spec gs (initializeGrid H W)
    (by rw [hh, hi]; rfl) (by rw [hh]; simp) (by rw [hh]; simp)
  have r1' : (recordEdits (initializeGrid H W) gs).history
      = initGrid "#FFFFFF" :: gs := by
    rw [r1, hh,
      show ([initGrid "#FFFFFF"] : List PixGrid).length + gs.length - 50 = 0 by
        simp only [List.length_singleton]; omega,
      List.drop_zero]
    rfl
  have r2' : (recordEdits (initializeGrid H W) gs).historyIndex
      = gs.length := by
    rw [r2, hh]
    simp only [List.length_singleton]
    rw [show min (1 + gs.length) 50 = 1 + gs.length by omega]
    push_cast
    ring
  have r4' : (recordEdits (initializeGrid H W) gs).history.length
      = 1 + gs.length := by
    rw [r4, hh]
    simp only [List.length_singleton]
    omega
  obtain ⟨u1, u2, u3⟩ := undo_iterate gs.length
    (recordEdits (initializeGrid H W) gs) (by rw [r2'])
  refine ⟨?_, ?_, ?_, ?_⟩
  · rw [u3]
    by_cases h0 : gs.length = 0
    · rw [if_pos h0, r3, List.length_eq_zero.mp h0]
      rw [List.getLastD_nil, hg]
    · rw [if_neg h0, r1', r2',
        show ((gs.length : Int) - gs.length).toNat = 0 by omega]
      rfl
  · obtain ⟨d1, d2, d3⟩ := redo_iterate gs.length
      (undo^[gs.length] (recordEdits (initializeGrid H W) gs))
      (by rw [u2, u1, r2', r4']; push_cast; omega)
    rw [d3]
    by_cases h0 : gs.length = 0
    · rw [if_pos h0, u3, if_pos h0]
    · rw [if_neg h0, u1, u2, r1', r2', r3, hg,
        show ((gs.length : Int) - gs.length + gs.length).toNat = gs.length by
          omega,
        show gs.length = ((gs.length - 1) + 1 : Nat) by omega,
        List.getD_cons_succ]
      have hgs : gs ≠ [] := by
        intro hnil
        exact h0 (by rw [hnil]; rfl)
      exact getD_length_sub_one gs dfltGrid (initGrid "#FFFFFF") hgs
  · intro s hs
    rw [undo, if_neg (by omega)]
  · intro s hs
    rw [redo, if_neg (by omega)]


theorem getD_drop (l : List PixGrid) (m n : Nat) (d : PixGrid) :
    (l.drop m).getD n d = l.getD (m + n) d := by
  rw [List.getD_eq_getD_get?, List.getD_eq_getD_get?, List.get?_drop]

/-- Claim C7: the history stack never exceeds 50 entries.  When a record
would exceed the bound the oldest entry is evicted and the cursor stays
put; after recording 60 edits on a fresh history exactly 50 entries
remain (the initial blank entry and the oldest 10 edits are gone, the
entries are edits 11..60), and the cursor (index 49) still points at the
most recent edit as the current entry. -/
theorem history_capacity :
    (∀ s : AppState, s.history.length = 50 → s.historyIndex = 49 →
        (saveState s).history = s.history.tail ++ [s.grid]
      ∧ (saveState s).historyIndex = 49
      ∧ (saveState s).history.length = 50)
  ∧ (∀ (H W : Int) (gs : List PixGrid), gs.length = 60 →
        (recordEdits (initializeGrid H W) gs).history.length = 50
      ∧ (recordEdits (initializeGrid H W) gs).history
          = (initGrid "#FFFFFF" :: gs).drop 11
      ∧ (recordEdits (initializeGrid H W) gs).historyIndex = 49
      ∧ (recordEdits (initializeGrid H W) gs).history.getD 49 dfltGrid
          = gs.getD 59 dfltGrid) := by
  constructor
  · intro s hlen hidx
    obtain ⟨e1, e2, e3, e4⟩ := saveState_step s
      (by rw [hidx, hlen]; decide) (by omega) (by omega)
    refine ⟨?_, ?_, ?_⟩
    · rw [e1, hlen,
        show (50 : Nat) + 1 - 50 = 1 by omega,
        List.drop_append_of_le_length (by omega), List.drop_one]
    · rw [e2, hlen]
      decide
    · rw [e4, hlen]
      decide
  · intro H W gs hlen
    obtain ⟨hh, hi, hg⟩ := initializeGrid_facts H W
    obtain ⟨r1, r2, r3, r4⟩ := recordEdits_spec gs (initializeGrid H W)
      (by rw [hh, hi]; rfl) (by rw [hh]; simp) (by rw [hh]; simp)
    have r1' : (recordEdits (initializeGrid H W) gs).history
        = (initGrid "#FFFFFF" :: gs).drop 11 := by
      rw [r1, hh, hlen]
      rfl
    have r4' : (recordEdits (initializeGrid H W) gs).history.length = 50 := by
      rw [r4, hh, hlen]
      rfl
    refine ⟨r4', r1', ?_, ?_⟩
    · rw [r2, hh, hlen]
      decide
    · rw [r1', getD_drop, show (11 : Nat) + 49 = 59 + 1 by omega,
        List.getD_cons_succ]


/-- Concrete instantiation of the undo/redo theorem: one recorded edit,
one undo, back to the blank grid. -/
theorem history_undo_redo_witness :
    ([initGrid "#FF0000"] : List PixGrid).length < 50
  ∧ (undo^[([initGrid "#FF0000"] : List PixGrid).length]
      (recordEdits (initializeGrid 8 8) [initGrid "#FF0000"])).grid
      = initGrid "#FFFFFF" :=
  ⟨by decide, (history_undo_redo 8 8 [initGrid "#FF0000"] (by decide)).1⟩

/-- Concrete instantiation of the capacity theorem: 60 recorded edits
leave exactly 50 entries. -/
theorem history_capacity_witness :
    (List.replicate 60 (initGrid "#123456") : List PixGrid).length = 60
  ∧ (recordEdits (initializeGrid 8 8)
      (List.replicate 60 (initGrid "#123456"))).history.length = 50 :=
  ⟨by simp, (history_capacity.2 8 8 (List.replicate 60 (initGrid "#123456"))
    (by simp)).1⟩

/- ------------------------------------------------------------------ -/
/- Helper lemmas about the Bresenham walk.                             -/
/- ------------------------------------------------------------------ -/

theorem bresLoop_ne_nil (row1 col1 dx dy sx sy : Int) :
    ∀ (fuel : Nat) (r c err : Int),
      bresLoop row1 col1 dx dy sx sy fuel r c err ≠ [] := by
  intro fuel r c err
  cases fuel with
  | zero => simp [bresLoop]
  | succ fuel =>
    rw [bresLoop]
    by_cases h : r = row1 ∧ c = col1
    · simp [h]
    · simp [h]

theorem bresLoop_head (row1 col1 dx dy sx sy : Int) (fuel : Nat)
    (r c err : Int) :
    (bresLoop row1 col1 dx dy sx sy fuel r c err).head? = some (r, c) := by
  cases fuel with
  | zero => rfl
  | succ fuel =>
    rw [bresLoop]
    by_cases h : r = row1 ∧ c = col1
    · simp [h]
    · simp [h]

theorem bresLoop_length (row1 col1 dx dy sx sy : Int) :
    ∀ (fuel : Nat) (r c err : Int),
      (bresLoop row1 col1 dx dy sx sy fuel r c err).length ≤ fuel + 1 := by
  intro fuel
  induction fuel with
  | zero => intro r c err; simp [bresLoop]
  | succ fuel ih =>
    intro r c err
    rw [bresLoop]
    by_cases h : r = row1 ∧ c = col1
    · simp [h]
    · rw [if_neg h]
      by_cases h1 : 2 * err > -dy <;> by_cases h2 : 2 * err < dx <;>
        simp only [if_pos, if_neg, h1, h2, if_true, if_false, List.length_cons] <;>
        exact Nat.succ_le_succ (ih _ _ _)

theorem bresLoop_chain (row1 col1 dx dy sx sy : Int)
    (hsx : sx = 1 ∨ sx = -1) (hsy : sy = 1 ∨ sy = -1) :
    ∀ (fuel : Nat) (r c err : Int),
      List.Chain' adjCell (bresLoop row1 col1 dx dy sx sy fuel r c err) := by
  intro fuel
  induction fuel with
  | zero => intro r c err; simp [bresLoop]
  | succ fuel ih =>
    intro r c err
    rw [bresLoop]
    by_cases h : r = row1 ∧ c = col1
    · simp [h]
    · rw [if_neg h]
      have step : ∀ r' c' err' : Int,
          (r' - r).natAbs ≤ 1 → (c' - c).natAbs ≤ 1 →
          List.Chain' adjCell
            ((r, c) :: bresLoop row1 col1 dx dy sx sy fuel r' c' err') := by
        intro r' c' err' ha hb
        rw [List.chain'_cons']
        refine ⟨?_, ih r' c' err'⟩
        intro q hq
        rw [bresLoop_head] at hq
        cases hq
        exact ⟨ha, hb⟩
      by_cases h1 : 2 * err > -dy <;> by_cases h2 : 2 * err < dx <;>
        simp only [h1, h2, if_true, if_false] <;>
        apply step <;>
        rcases hsx with rfl | rfl <;> rcases hsy with rfl | rfl <;> simp

theorem bresLoop_swap (row1 col1 dx dy sx sy : Int) :
    ∀ (fuel : Nat) (r c err : Int),
      bresLoop row1 col1 dx dy sx sy fuel r c err
        = (bresLoop col1 row1 dy dx sy sx fuel c r (-err)).map Prod.swap := by
  intro fuel
  induction fuel with
  | zero => intro r c err; simp [bresLoop]
  | succ fuel ih =>
    intro r c err
    rw [bresLoop]
    conv_rhs => rw [bresLoop]
    by_cases hend : r = row1 ∧ c = col1
    · rw [if_pos hend, if_pos ⟨hend.2, hend.1⟩]
      simp
    · rw [if_neg hend,
        if_neg (show ¬ (c = col1 ∧ r = row1) from fun hh => hend ⟨hh.2, hh.1⟩),
        List.map_cons]
      refine congrArg (List.cons (r, c)) ?_
      by_cases hC : 2 * err > -dy <;> by_cases hR : 2 * err < dx
      · rw [if_pos hC, if_pos hR, if_pos (show 2 * -err > -dx by omega),
          if_pos (show 2 * -err < dy by omega), ih,
          show -(err - dy + dx) = -err - dx + dy by ring]
      · rw [if_pos hC, if_neg hR, if_neg (show ¬ (2 * -err > -dx) by omega),
          if_pos (show 2 * -err < dy by omega), ih,
          show -(err - dy) = -err + dy by ring]
      · rw [if_neg hC, if_pos hR, if_pos (show 2 * -err > -dx by omega),
          if_neg (show ¬ (2 * -err < dy) by omega), ih,
          show -(err + dx) = -err - dx by ring]
      · rw [if_neg hC, if_neg hR, if_neg (show ¬ (2 * -err > -dx) by omega),
          if_neg (show ¬ (2 * -err < dy) by omega), ih]

theorem getLast?_cons_ne_nil {l : List (Int × Int)} (h : l ≠ [])
    (a : Int × Int) : (a :: l).getLast? = l.getLast? := by
  cases l with
  | nil => exact absurd rfl h
  | cons b t => exact List.getLast?_cons_cons

theorem bresLoop_getLast (row1 col1 dx dy sx sy : Int)
    (hdx : 1 ≤ dx) (hdy : 0 ≤ dy) (hxy : dy ≤ dx)
    (hsx : sx = 1 ∨ sx = -1) (hsy : sy = 1 ∨ sy = -1) :
    ∀ (fuel : Nat) (r c err u v : Int),
      u = sx * (col1 - c) → v = sy * (row1 - r) →
      err = dx - dy + (dy * u - dx * v) →
      0 ≤ u → 0 ≤ v → u.toNat ≤ fuel →
      dy - 2 * dx + 1 ≤ 2 * (dy * u - dx * v) →
      2 * (dy * u - dx * v) ≤ dx - 1 →
      (bresLoop row1 col1 dx dy sx sy fuel r c err).getLast? = some (row1, col1) := by
  intro fuel
  induction fuel with
  | zero =>
    intro r c err u v hu hv herr hu0 hv0 hfuel hlo hhi
    have hu' : u = 0 := by omega
    have hv' : v = 0 := by
      rcases lt_or_le v 1 with h | h
      · omega
      · exfalso
        have hmul : dx * 1 ≤ dx * v := mul_le_mul_of_nonneg_left h (by omega)
        have hz : dy * u - dx * v = -(dx * v) := by rw [hu']; ring
        rw [hz] at hlo
        linarith
    have hr : r = row1 := by rcases hsy with rfl | rfl <;> omega
    have hc : c = col1 := by rcases hsx with rfl | rfl <;> omega
    subst hr; subst hc
    rfl
  | succ fuel ih =>
    intro r c err u v hu hv herr hu0 hv0 hfuel hlo hhi
    rw [bresLoop]
    by_cases hend : r = row1 ∧ c = col1
    · rw [if_pos hend, hend.1, hend.2]
      simp
    · rw [if_neg hend]
      have hu1 : 1 ≤ u := by
        rcases lt_or_le u 1 with h | h
        · exfalso
          have hu' : u = 0 := by omega
          have hv' : v = 0 := by
            rcases lt_or_le v 1 with h2 | h2
            · omega
            · exfalso
              have hmul : dx * 1 ≤ dx * v := mul_le_mul_of_nonneg_left h2 (by omega)
              have hz : dy * u - dx * v = -(dx * v) := by rw [hu']; ring
              rw [hz] at hlo
              linarith
          exact hend ⟨by rcases hsy with rfl | rfl <;> omega,
            by rcases hsx with rfl | rfl <;> omega⟩
        · exact h
      have hC : 2 * err > -dy := by
        have : 2 * err = 2 * dx - 2 * dy + 2 * (dy * u - dx * v) := by
          rw [herr]; ring
        linarith
      rw [if_pos hC]
      by_cases hR : 2 * err < dx
      · rw [if_pos hR,
          getLast?_cons_ne_nil (bresLoop_ne_nil row1 col1 dx dy sx sy fuel _ _ _) _]
        have hv1 : 1 ≤ v := by
          rcases lt_or_le v 1 with h2 | h2
          · exfalso
            have hv' : v = 0 := by omega
            have h2err : 2 * err = 2 * dx - 2 * dy + 2 * (dy * u) := by
              rw [herr, hv']; ring
            have hml : 0 ≤ 2 * dy * (u - 1) :=
              mul_nonneg (by omega) (by omega)
            nlinarith
          · exact h2
        have hrw : dy * (u - 1) - dx * (v - 1) = (dy * u - dx * v) + dx - dy := by
          ring
        apply ih (r + sy) (c + sx) (err - dy + dx) (u - 1) (v - 1)
        · rcases hsx with rfl | rfl <;> omega
        · rcases hsy with rfl | rfl <;> omega
        · rw [hrw, herr]; ring
        · omega
        · omega
        · omega
        · rw [hrw]
          have h2w : 2 * (dy * u - dx * v) < 2 * dy - dx := by
            have : 2 * err = 2 * dx - 2 * dy + 2 * (dy * u - dx * v) := by
              rw [herr]; ring
            linarith
          linarith
        · have h2w : 2 * (dy * u - dx * v) < 2 * dy - dx := by
            have : 2 * err = 2 * dx - 2 * dy + 2 * (dy * u - dx * v) := by
              rw [herr]; ring
            linarith
          rw [hrw]
          linarith
      · rw [if_neg hR,
          getLast?_cons_ne_nil (bresLoop_ne_nil row1 col1 dx dy sx sy fuel _ _ _) _]
        have h2w : 2 * dy - dx ≤ 2 * (dy * u - dx * v) := by
          have : 2 * err = 2 * dx - 2 * dy + 2 * (dy * u - dx * v) := by
            rw [herr]; ring
          linarith
        have hdxy : dy + 1 ≤ dx := by linarith
        have hrw : dy * (u - 1) - dx * v = (dy * u - dx * v) - dy := by ring
        apply ih r (c + sx) (err - dy) (u - 1) v
        · rcases hsx with rfl | rfl <;> omega
        · exact hv
        · rw [hrw, herr]; ring
        · omega
        · exact hv0
        · omega
        · rw [hrw]; linarith
        · rw [hrw]; linarith

theorem abs_eq_sign_mul (a b : Int) :
    |b - a| = (if a < b then (1 : Int) else -1) * (b - a) := by
  split_ifs with h
  · rw [one_mul, abs_of_nonneg (by omega)]
  · rw [neg_one_mul, abs_of_nonpos (by omega)]

theorem mem_of_getLast?_eq {l : List (Int × Int)} {a : Int × Int}
    (h : l.getLast? = some a) : a ∈ l := by
  have hx : a ∈ l.getLast? := by rw [h]; rfl
  obtain ⟨hne, rfl⟩ := List.mem_getLast?_eq_getLast hx
  exact List.getLast_mem hne

theorem drawLineCells_getLast (row0 col0 row1 col1 : Int) :
    (drawLineCells row0 col0 row1 col1).getLast? = some (row1, col1) := by
  show (bresLoop row1 col1 |col1 - col0| |row1 - row0|
      (if col0 < col1 then (1 : Int) else -1)
      (if row0 < row1 then (1 : Int) else -1)
      (max |col1 - col0| |row1 - row0|).toNat row0 col0
      (|col1 - col0| - |row1 - row0|)).getLast? = some (row1, col1)
  have hsx : (if col0 < col1 then (1 : Int) else -1) = 1
      ∨ (if col0 < col1 then (1 : Int) else -1) = -1 := by
    split_ifs <;> simp
  have hsy : (if row0 < row1 then (1 : Int) else -1) = 1
      ∨ (if row0 < row1 then (1 : Int) else -1) = -1 := by
    split_ifs <;> simp
  rcases le_or_lt |row1 - row0| |col1 - col0| with hmaj | hmaj
  · rcases eq_or_lt_of_le (abs_nonneg (col1 - col0)) with hz | hpos
    · have hx0 : |col1 - col0| = 0 := hz.symm
      have hy0 : |row1 - row0| = 0 := le_antisymm (hx0 ▸ hmaj) (abs_nonneg _)
      have hc : col1 = col0 := by have := abs_eq_zero.mp hx0; omega
      have hr : row1 = row0 := by have := abs_eq_zero.mp hy0; omega
      rw [hx0, hy0, hc, hr]
      rfl
    · have h1 : 1 ≤ |col1 - col0| := by
        have := Int.lt_iff_add_one_le.mp hpos
        linarith
      exact bresLoop_getLast row1 col1 _ _ _ _ h1 (abs_nonneg _) hmaj hsx hsy
        _ row0 col0 _ |col1 - col0| |row1 - row0|
        (abs_eq_sign_mul col0 col1) (abs_eq_sign_mul row0 row1)
        (by ring)
        (abs_nonneg _) (abs_nonneg _)
        (Int.toNat_le_toNat (le_max_left _ _))
        (by have : |row1 - row0| * |col1 - col0| - |col1 - col0| * |row1 - row0| = 0 := by
              ring
            rw [this]
            linarith)
        (by have : |row1 - row0| * |col1 - col0| - |col1 - col0| * |row1 - row0| = 0 := by
              ring
            rw [this]
            linarith)
  · have h1 : 1 ≤ |row1 - row0| := by
      have h0 : 0 ≤ |col1 - col0| := abs_nonneg _
      have := Int.lt_iff_add_one_le.mp (lt_of_le_of_lt h0 hmaj)
      linarith
    rw [bresLoop_swap, List.getLast?_map]
    have hmain : (bresLoop col1 row1 |row1 - row0| |col1 - col0|
        (if row0 < row1 then (1 : Int) else -1)
        (if col0 < col1 then (1 : Int) else -1)
        (max |col1 - col0| |row1 - row0|).toNat col0 row0
        (-(|col1 - col0| - |row1 - row0|))).getLast? = some (col1, row1) := by
      refine bresLoop_getLast col1 row1 _ _ _ _ h1 (abs_nonneg _) (le_of_lt hmaj)
        hsy hsx _ col0 row0 _ |row1 - row0| |col1 - col0|
        (abs_eq_sign_mul row0 row1) (abs_eq_sign_mul col0 col1)
        (by ring)
        (abs_nonneg _) (abs_nonneg _)
        (Int.toNat_le_toNat (le_max_right _ _))
        ?_ ?_
      · have : |col1 - col0| * |row1 - row0| - |row1 - row0| * |col1 - col0| = 0 := by
          ring
        rw [this]
        linarith
      · have : |col1 - col0| * |row1 - row0| - |row1 - row0| * |col1 - col0| = 0 := by
          ring
        rw [this]
        linarith
    rw [hmain]
    rfl

/-- Claim C4: for every pair of cells, the Bresenham interpolator emits an
ordered sequence that starts at the first endpoint, contains the second
endpoint, in which consecutive cells differ by at most one row and one
column, of length at most `max |col1 - col0| |row1 - row0| + 1`; the walk
from (0,0) to (5,5) is the pure diagonal and the walk from (0,0) to (0,5)
is the horizontal sequence. -/
theorem bresenham_spec :
    (∀ row0 col0 row1 col1 : Int,
        (drawLineCells row0 col0 row1 col1).head? = some (row0, col0)
      ∧ (row1, col1) ∈ drawLineCells row0 col0 row1 col1
      ∧ List.Chain' adjCell (drawLineCells row0 col0 row1 col1)
      ∧ (drawLineCells row0 col0 row1 col1).length
          ≤ max (col1 - col0).natAbs (row1 - row0).natAbs + 1)
  ∧ drawLineCells 0 0 5 5 = [(0,0),(1,1),(2,2),(3,3),(4,4),(5,5)]
  ∧ drawLineCells 0 0 0 5 = [(0,0),(0,1),(0,2),(0,3),(0,4),(0,5)] := by
  refine ⟨?_, by decide, by decide⟩
  intro row0 col0 row1 col1
  have hsx : (if col0 < col1 then (1 : Int) else -1) = 1
      ∨ (if col0 < col1 then (1 : Int) else -1) = -1 := by
    split_ifs <;> simp
  have hsy : (if row0 < row1 then (1 : Int) else -1) = 1
      ∨ (if row0 < row1 then (1 : Int) else -1) = -1 := by
    split_ifs <;> simp
  refine ⟨bresLoop_head _ _ _ _ _ _ _ _ _ _,
    mem_of_getLast?_eq (drawLineCells_getLast row0 col0 row1 col1),
    bresLoop_chain _ _ _ _ _ _ hsx hsy _ _ _ _, ?_⟩
  show (bresLoop row1 col1 |col1 - col0| |row1 - row0|
      (if col0 < col1 then (1 : Int) else -1)
      (if row0 < row1 then (1 : Int) else -1)
      (max |col1 - col0| |row1 - row0|).toNat row0 col0
      (|col1 - col0| - |row1 - row0|)).length
      ≤ max (col1 - col0).natAbs (row1 - row0).natAbs + 1
  have hb := bresLoop_length row1 col1 |col1 - col0| |row1 - row0|
      (if col0 < col1 then (1 : Int) else -1)
      (if row0 < row1 then (1 : Int) else -1)
      (max |col1 - col0| |row1 - row0|).toNat row0 col0
      (|col1 - col0| - |row1 - row0|)
  have hfuel : (|col1 - col0| ⊔ |row1 - row0|).toNat
      = (col1 - col0).natAbs ⊔ (row1 - row0).natAbs := by
    rw [Int.abs_eq_natAbs, Int.abs_eq_natAbs, ← Nat.cast_max, Int.toNat_natCast]
  rw [hfuel] at hb ⊢
  exact hb

/- ------------------------------------------------------------------ -/
/- Helper lemmas about the brush stamp.                                -/
/- ------------------------------------------------------------------ -/

theorem foldl_stamp_cols (H W : Int) (color : Color) (row col r : Int) :
    ∀ (cs : List Int) (g : PixGrid) (i j : Int),
      (cs.foldl (fun g2 c =>
          if 0 ≤ row + r ∧ row + r < H ∧ 0 ≤ col + c ∧ col + c < W then
            setCell g2 (row + r) (col + c) color else g2) g) i j
      = if ∃ c ∈ cs, i = row + r ∧ j = col + c ∧ inBounds H W i j
        then color else g i j := by
  intro cs
  induction cs with
  | nil => intro g i j; simp
  | cons c cs ih =>
    intro g i j
    rw [List.foldl_cons, ih]
    by_cases hex : ∃ x ∈ cs, i = row + r ∧ j = col + x ∧ inBounds H W i j
    · obtain ⟨x, hx, hcc⟩ := hex
      rw [if_pos ⟨x, hx, hcc⟩, if_pos ⟨x, List.mem_cons_of_mem _ hx, hcc⟩]
    · rw [if_neg hex, apply_ite (fun f : PixGrid => f i j)]
      by_cases hc : i = row + r ∧ j = col + c ∧ inBounds H W i j
      · have hb : 0 ≤ row + r ∧ row + r < H ∧ 0 ≤ col + c ∧ col + c < W := by
          obtain ⟨e1, e2, b1, b2, b3, b4⟩ := hc
          refine ⟨by omega, by omega, by omega, by omega⟩
        rw [if_pos hb]
        have hset : setCell g (row + r) (col + c) color i j = color := by
          simp [setCell, hc.1, hc.2.1]
        rw [hset, if_pos ⟨c, List.mem_cons_self c cs, hc⟩]
      · have hno : ¬ ∃ x ∈ c :: cs, i = row + r ∧ j = col + x ∧ inBounds H W i j := by
          rintro ⟨x, hx, hcc⟩
          rcases List.mem_cons.mp hx with rfl | hx2
          · exact hc hcc
          · exact hex ⟨x, hx2, hcc⟩
        rw [if_neg hno]
        by_cases hb : 0 ≤ row + r ∧ row + r < H ∧ 0 ≤ col + c ∧ col + c < W
        · rw [if_pos hb]
          have hne : ¬ (i = row + r ∧ j = col + c) := by
            rintro ⟨e1, e2⟩
            exact hc ⟨e1, e2, e1 ▸ e2 ▸ ⟨hb.1, hb.2.1, hb.2.2.1, hb.2.2.2⟩⟩
          simp [setCell, hne]
        · rw [if_neg hb]

theorem foldl_stamp_rows (H W : Int) (color : Color) (row col : Int) (cs : List Int) :
    ∀ (rs : List Int) (g : PixGrid) (i j : Int),
      (rs.foldl (fun g1 r =>
          cs.foldl (fun g2 c =>
            if 0 ≤ row + r ∧ row + r < H ∧ 0 ≤ col + c ∧ col + c < W then
              setCell g2 (row + r) (col + c) color else g2) g1) g) i j
      = if ∃ r ∈ rs, ∃ c ∈ cs, i = row + r ∧ j = col + c ∧ inBounds H W i j
        then color else g i j := by
  intro rs
  induction rs with
  | nil => intro g i j; simp
  | cons r rs ih =>
    intro g i j
    rw [List.foldl_cons, ih]
    by_cases hex : ∃ x ∈ rs, ∃ c ∈ cs, i = row + x ∧ j = col + c ∧ inBounds H W i j
    · obtain ⟨x, hx, hcc⟩ := hex
      rw [if_pos ⟨x, hx, hcc⟩, if_pos ⟨x, List.mem_cons_of_mem _ hx, hcc⟩]
    · rw [if_neg hex, foldl_stamp_cols]
      by_cases hc : ∃ c ∈ cs, i = row + r ∧ j = col + c ∧ inBounds H W i j
      · rw [if_pos hc, if_pos ⟨r, List.mem_cons_self r rs, hc⟩]
      · rw [if_neg hc, if_neg]
        rintro ⟨x, hx, hcc⟩
        rcases List.mem_cons.mp hx with rfl | hx2
        · exact hc hcc
        · exact hex ⟨x, hx2, hcc⟩

theorem mem_brushOffsets {b x : Int} (hb : 1 ≤ b) :
    x ∈ brushOffsets b ↔ -(b / 2) ≤ x ∧ x < b - b / 2 := by
  unfold brushOffsets
  rw [List.mem_map]
  constructor
  · rintro ⟨k, hk, rfl⟩
    rw [List.mem_range] at hk
    omega
  · intro ⟨h1, h2⟩
    refine ⟨(x + b / 2).toNat, ?_, ?_⟩
    · rw [List.mem_range]
      omega
    · omega

theorem stampBrush_apply (H W b : Int) (g : PixGrid) (row col : Int)
    (color : Color) (hb : 1 ≤ b) (i j : Int) :
    stampBrush H W b g row col color i j
    = if row - b / 2 ≤ i ∧ i < row + (b - b / 2) ∧ col - b / 2 ≤ j
         ∧ j < col + (b - b / 2) ∧ inBounds H W i j
      then color else g i j := by
  rw [stampBrush, foldl_stamp_rows]
  by_cases h : row - b / 2 ≤ i ∧ i < row + (b - b / 2) ∧ col - b / 2 ≤ j
      ∧ j < col + (b - b / 2) ∧ inBounds H W i j
  · rw [if_pos h, if_pos]
    obtain ⟨h1, h2, h3, h4, h5⟩ := h
    exact ⟨i - row, (mem_brushOffsets hb).mpr ⟨by omega, by omega⟩,
      j - col, (mem_brushOffsets hb).mpr ⟨by omega, by omega⟩, by omega, by omega, h5⟩
  · rw [if_neg h, if_neg]
    rintro ⟨r, hr, c, hc, e1, e2, hin⟩
    rw [mem_brushOffsets hb] at hr hc
    exact h ⟨by omega, by omega, by omega, by omega, hin⟩

/-- Claim C5: for brush sizes 1..5, one pencil/eraser stamp at `(row, col)`
writes exactly the in-bounds cells of the square
`[row - floor(b/2), row + b - floor(b/2)) x [col - floor(b/2), col + b - floor(b/2))`
and leaves every other cell unchanged; the pencil and eraser branches of
`drawPixel` are exactly this stamp.  Concretely: a 3x3 stamp at (5,5) on an
8x8 blank grid colors exactly the nine cells (4..6, 4..6); a 3x3 stamp at
the corner (0,0) colors exactly the four in-bounds cells (0..1, 0..1); a
2x2 stamp at (5,5) covers rows 4..5 and columns 4..5 (biased toward lower
indices). -/
theorem brush_stamp_spec :
    (∀ (H W b : Int) (g : PixGrid) (row col : Int) (color : Color) (i j : Int),
        1 ≤ b → b ≤ 5 →
        stampBrush H W b g row col color i j
          = if row - b / 2 ≤ i ∧ i < row + (b - b / 2) ∧ col - b / 2 ≤ j
               ∧ j < col + (b - b / 2) ∧ inBounds H W i j
            then color else g i j)
  ∧ (∀ (s : AppState) (row col : Int),
        s.currentTool = Tool.pencil →
        ¬ (row < 0 ∨ s.gridHeight ≤ row ∨ col < 0 ∨ s.gridWidth ≤ col) →
        (drawPixel s row col).grid
          = stampBrush s.gridHeight s.gridWidth s.brushSize s.grid row col
              s.currentColor)
  ∧ (∀ (s : AppState) (row col : Int),
        s.currentTool = Tool.eraser →
        ¬ (row < 0 ∨ s.gridHeight ≤ row ∨ col < 0 ∨ s.gridWidth ≤ col) →
        (drawPixel s row col).grid
          = stampBrush s.gridHeight s.gridWidth s.brushSize s.grid row col
              "#FFFFFF")
  ∧ (∀ i j : Int, stampBrush 8 8 3 (initGrid "#FFFFFF") 5 5 "#000000" i j
        = if 4 ≤ i ∧ i ≤ 6 ∧ 4 ≤ j ∧ j ≤ 6 then "#000000" else "#FFFFFF")
  ∧ (∀ i j : Int, stampBrush 8 8 3 (initGrid "#FFFFFF") 0 0 "#000000" i j
        = if 0 ≤ i ∧ i ≤ 1 ∧ 0 ≤ j ∧ j ≤ 1 then "#000000" else "#FFFFFF")
  ∧ (∀ i j : Int, stampBrush 8 8 2 (initGrid "#FFFFFF") 5 5 "#000000" i j
        = if 4 ≤ i ∧ i ≤ 5 ∧ 4 ≤ j ∧ j ≤ 5 then "#000000" else "#FFFFFF") := by
  have conc : ∀ (b row col lo hi lo2 hi2 : Int), 1 ≤ b →
      lo = max (row - b / 2) 0 → hi = min (row + (b - b / 2) - 1) 7 →
      lo2 = max (col - b / 2) 0 → hi2 = min (col + (b - b / 2) - 1) 7 →
      ∀ i j : Int, stampBrush 8 8 b (initGrid "#FFFFFF") row col "#000000" i j
        = if lo ≤ i ∧ i ≤ hi ∧ lo2 ≤ j ∧ j ≤ hi2
          then "#000000" else "#FFFFFF" := by
    intro b row col lo hi lo2 hi2 hb hlo hhi hlo2 hhi2 i j
    rw [stampBrush_apply 8 8 b _ row col _ hb i j]
    by_cases h : lo ≤ i ∧ i ≤ hi ∧ lo2 ≤ j ∧ j ≤ hi2
    · obtain ⟨h1, h2, h3, h4⟩ := h
      rw [if_pos ⟨by omega, by omega, by omega, by omega, by omega, by omega,
        by omega, by omega⟩, if_pos ⟨h1, h2, h3, h4⟩]
    · rw [if_neg, if_neg h]
      · rfl
      · rintro ⟨a1, a2, a3, a4, b1, b2, b3, b4⟩
        exact h ⟨by omega, by omega, by omega, by omega⟩
  refine ⟨?_, ?_, ?_, ?_, ?_, ?_⟩
  · intro H W b g row col color i j hb _
    exact stampBrush_apply H W b g row col color hb i j
  · intro s row col htool hguard
    simp only [drawPixel, if_neg hguard, htool]
  · intro s row col htool hguard
    simp only [drawPixel, if_neg hguard, htool]
  · intro i j
    rw [conc 3 5 5 4 6 4 6 (by decide) (by decide) (by decide) (by decide)
      (by decide) i j]
  · intro i j
    rw [conc 3 0 0 0 1 0 1 (by decide) (by decide) (by decide) (by decide)
      (by decide) i j]
  · intro i j
    rw [conc 2 5 5 4 5 4 5 (by decide) (by decide) (by decide) (by decide)
      (by decide) i j]

/-- Concrete instantiation of the brush-stamp theorem: the 3x3 stamp at
(2,2) colors the cell (1,1). -/
theorem brush_stamp_spec_witness :
    ((1 : Int) ≤ 3 ∧ (3 : Int) ≤ 5)
  ∧ stampBrush 8 8 3 (initGrid "#FFFFFF") 2 2 "#000000" 1 1
      = if (2 : Int) - 3 / 2 ≤ 1 ∧ (1 : Int) < 2 + (3 - 3 / 2)
           ∧ (2 : Int) - 3 / 2 ≤ 1 ∧ (1 : Int) < 2 + (3 - 3 / 2)
           ∧ inBounds 8 8 1 1
        then "#000000" else initGrid "#FFFFFF" 1 1 :=
  ⟨⟨by decide, by decide⟩,
    brush_stamp_spec.1 8 8 3 (initGrid "#FFFFFF") 2 2 "#000000" 1 1
      (by decide) (by decide)⟩

/-- Claim C8: the color history holds no duplicate colors and at most 20
entries, and `addToColorHistory` preserves this: an already-present color
is moved to the front without duplication (its count stays one and the
length is unchanged), a new color is inserted at the front, and a 21st
distinct color evicts the least-recently-used (last) entry.  The initial
history satisfies the invariant. -/
theorem addToColorHistory_spec :
    ((["#000000", "#FFFFFF"] : List Color).Nodup ∧
      (["#000000", "#FFFFFF"] : List Color).length ≤ 20)
  ∧ (∀ (c : Color) (l : List Color),
        (addToColorHistory c l).length ≤ 20
      ∧ (addToColorHistory c l).head? = some c
      ∧ (l.Nodup → (addToColorHistory c l).Nodup))
  ∧ (∀ (c : Color) (l : List Color), c ∈ l → l.Nodup → l.length ≤ 20 →
        addToColorHistory c l = c :: l.erase c
      ∧ (addToColorHistory c l).length = l.length
      ∧ (addToColorHistory c l).count c = 1)
  ∧ (∀ (c : Color) (l : List Color), c ∉ l →
        addToColorHistory c l = (c :: l).take 20)
  ∧ (∀ (c : Color) (l : List Color), c ∉ l → l.length = 20 →
        addToColorHistory c l = c :: l.dropLast) := by
  refine ⟨⟨by decide, by decide⟩, ?_, ?_, ?_, ?_⟩
  · intro c l
    refine ⟨by simp [addToColorHistory, List.length_take], ?_, ?_⟩
    · rw [addToColorHistory, show (20:Nat) = 19+1 from rfl, List.take_succ_cons]
      rfl
    · intro h
      apply (List.take_sublist _ _).nodup
      exact List.nodup_cons.mpr ⟨by simp [List.mem_filter], h.filter _⟩
  · intro c l hm hnd hlen
    have he : addToColorHistory c l = c :: l.erase c := by
      rw [addToColorHistory, filter_ne_erase hnd]
      apply List.take_of_length_le
      simp only [List.length_cons, List.length_erase_of_mem hm]
      have : 1 ≤ l.length := List.length_pos.mpr (by rintro rfl; simp at hm)
      omega
    refine ⟨he, ?_, ?_⟩
    · rw [he]
      simp only [List.length_cons, List.length_erase_of_mem hm]
      have : 1 ≤ l.length := List.length_pos.mpr (by rintro rfl; simp at hm)
      omega
    · rw [he, List.count_cons_self,
        List.count_eq_zero.mpr hnd.not_mem_erase]
  · intro c l hm
    rw [addToColorHistory, filter_ne_of_not_mem hm]
  · intro c l hm hlen
    rw [addToColorHistory, filter_ne_of_not_mem hm,
      show (20:Nat) = 19+1 from rfl, List.take_succ_cons,
      List.dropLast_eq_take, hlen]

/-- Concrete instantiation of the color-history theorem: moving the
already-present color "#FFFFFF" of the initial palette to the front. -/
theorem addToColorHistory_spec_witness :
    ("#FFFFFF" ∈ (["#000000", "#FFFFFF"] : List Color)
      ∧ (["#000000", "#FFFFFF"] : List Color).Nodup
      ∧ (["#000000", "#FFFFFF"] : List Color).length ≤ 20)
  ∧ addToColorHistory "#FFFFFF" ["#000000", "#FFFFFF"]
      = "#FFFFFF" :: (["#000000", "#FFFFFF"] : List Color).erase "#FFFFFF" :=
  ⟨⟨by decide, by decide, by decide⟩,
    (addToColorHistory_spec.2.2.1 "#FFFFFF" ["#000000", "#FFFFFF"]
      (by decide) (by decide) (by decide)).1⟩


/- ------------------------------------------------------------------ -/
/- Gesture-layer lemmas: pencil/eraser drawing never touches history.  -/
/- ------------------------------------------------------------------ -/

theorem drawPixel_draw_preserves (s : AppState) (row col : Int)
    (htool : s.currentTool = Tool.pencil ∨ s.currentTool = Tool.eraser) :
    (drawPixel s row col).history = s.history
    ∧ (drawPixel s row col).historyIndex = s.historyIndex
    ∧ (drawPixel s row col).isDrawing = s.isDrawing
    ∧ (drawPixel s row col).currentTool = s.currentTool
    ∧ (drawPixel s row col).lastDrawnPos = s.lastDrawnPos := by
  rcases htool with ht | ht <;>
    simp only [drawPixel, ht] <;>
    split_ifs <;>
    exact ⟨rfl, rfl, rfl, by first | rfl | exact ht, rfl⟩

theorem drawLineFold_preserves :
    ∀ (cells : List (Int × Int)) (s : AppState),
      (s.currentTool = Tool.pencil ∨ s.currentTool = Tool.eraser) →
      ((cells.foldl (fun st p => drawPixel st p.1 p.2) s).history = s.history
      ∧ (cells.foldl (fun st p => drawPixel st p.1 p.2) s).historyIndex
          = s.historyIndex
      ∧ (cells.foldl (fun st p => drawPixel st p.1 p.2) s).isDrawing
          = s.isDrawing
      ∧ (cells.foldl (fun st p => drawPixel st p.1 p.2) s).currentTool
          = s.currentTool
      ∧ (cells.foldl (fun st p => drawPixel st p.1 p.2) s).lastDrawnPos
          = s.lastDrawnPos) := by
  intro cells
  induction cells with
  | nil => intro s _; exact ⟨rfl, rfl, rfl, rfl, rfl⟩
  | cons p cells ih =>
    intro s htool
    rw [List.foldl_cons]
    obtain ⟨d1, d2, d3, d4, d5⟩ := drawPixel_draw_preserves s p.1 p.2 htool
    obtain ⟨f1, f2, f3, f4, f5⟩ := ih (drawPixel s p.1 p.2) (by rw [d4]; exact htool)
    exact ⟨f1.trans d1, f2.trans d2, f3.trans d3, f4.trans d4, f5.trans d5⟩

theorem onMouseMoveDraw_none (s : AppState) (row col : Int)
    (htool : s.currentTool = Tool.pencil ∨ s.currentTool = Tool.eraser)
    (hlp : s.lastDrawnPos = none) :
    onMouseMoveDraw s row col
      = { drawPixel { s with isDrawing := true } row col with
            lastDrawnPos := some (row, col) } := by
  rw [onMouseMoveDraw, if_pos htool, hlp]

theorem onMouseMoveDraw_some (s : AppState) (row col pr pc : Int)
    (htool : s.currentTool = Tool.pencil ∨ s.currentTool = Tool.eraser)
    (hlp : s.lastDrawnPos = some (pr, pc)) :
    onMouseMoveDraw s row col
      = if pr ≠ row ∨ pc ≠ col then
          { drawLineApp { s with isDrawing := true } pr pc row col with
              lastDrawnPos := some (row, col) }
        else
          { s with isDrawing := true, lastDrawnPos := some (row, col) } := by
  rw [onMouseMoveDraw, if_pos htool, hlp]

theorem onMouseMoveDraw_preserves (s : AppState) (row col : Int)
    (htool : s.currentTool = Tool.pencil ∨ s.currentTool = Tool.eraser) :
    (onMouseMoveDraw s row col).history = s.history
    ∧ (onMouseMoveDraw s row col).historyIndex = s.historyIndex
    ∧ (onMouseMoveDraw s row col).isDrawing = true
    ∧ (onMouseMoveDraw s row col).currentTool = s.currentTool := by
  cases hlp : s.lastDrawnPos with
  | none =>
    rw [onMouseMoveDraw_none s row col htool hlp]
    obtain ⟨d1, d2, d3, d4, d5⟩ := drawPixel_draw_preserves
      { s with isDrawing := true } row col htool
    exact ⟨d1, d2, d3, d4⟩
  | some pq =>
    obtain ⟨pr, pc⟩ := pq
    rw [onMouseMoveDraw_some s row col pr pc htool hlp]
    by_cases hne : pr ≠ row ∨ pc ≠ col
    · rw [if_pos hne]
      obtain ⟨f1, f2, f3, f4, f5⟩ := drawLineFold_preserves
        (drawLineCells pr pc row col) { s with isDrawing := true } htool
      exact ⟨f1, f2, f3, f4⟩
    · rw [if_neg hne]
      exact ⟨rfl, rfl, rfl, rfl⟩

theorem movesFold_preserves :
    ∀ (moves : List (Int × Int)) (s : AppState),
      (s.currentTool = Tool.pencil ∨ s.currentTool = Tool.eraser) →
      ((moves.foldl (fun st p => onMouseMoveDraw st p.1 p.2) s).history
          = s.history
      ∧ (moves.foldl (fun st p => onMouseMoveDraw st p.1 p.2) s).historyIndex
          = s.historyIndex
      ∧ (moves.foldl (fun st p => onMouseMoveDraw st p.1 p.2) s).currentTool
          = s.currentTool
      ∧ (s.isDrawing = true →
          (moves.foldl (fun st p => onMouseMoveDraw st p.1 p.2) s).isDrawing
            = true)) := by
  intro moves
  induction moves with
  | nil => intro s _; exact ⟨rfl, rfl, rfl, fun h => h⟩
  | cons p moves ih =>
    intro s htool
    rw [List.foldl_cons]
    obtain ⟨d1, d2, d3, d4⟩ := onMouseMoveDraw_preserves s p.1 p.2 htool
    obtain ⟨f1, f2, f3, f4⟩ := ih (onMouseMoveDraw s p.1 p.2)
      (by rw [d4]; exact htool)
    exact ⟨f1.trans d1, f2.trans d2, f3.trans d4, fun _ => f4 d3⟩

theorem saveState_preserves (s : AppState) :
    (saveState s).isDrawing = s.isDrawing
    ∧ (saveState s).currentTool = s.currentTool
    ∧ (saveState s).grid = s.grid
    ∧ (saveState s).currentColor = s.currentColor := by
  rw [saveState]
  split_ifs <;> exact ⟨rfl, rfl, rfl, rfl⟩

theorem stopDrawing_of_isDrawing (s : AppState) (h : s.isDrawing = true) :
    (stopDrawing s).history = (saveState s).history
    ∧ (stopDrawing s).historyIndex = (saveState s).historyIndex
    ∧ (stopDrawing s).grid = s.grid
    ∧ (stopDrawing s).currentColor = s.currentColor
    ∧ (stopDrawing s).currentTool = s.currentTool := by
  rw [stopDrawing, if_pos h]
  exact ⟨rfl, rfl, (saveState_preserves s).2.2.1,
    (saveState_preserves s).2.2.2, (saveState_preserves s).2.1⟩

theorem saveState_grow (s : AppState)
    (hidx : s.historyIndex = (s.history.length : Int) - 1)
    (hcap : s.history.length + 1 ≤ MAX_HISTORY) :
    (saveState s).history = s.history ++ [s.grid]
    ∧ (saveState s).historyIndex = s.historyIndex + 1 := by
  have htake : s.history.take (s.historyIndex + 1).toNat = s.history := by
    have h : (s.historyIndex + 1).toNat = s.history.length := by omega
    rw [h, List.take_length]
  rw [saveState, htake]
  rw [if_neg (by
    simp only [MAX_HISTORY, List.length_append, List.length_singleton] at hcap ⊢
    omega)]
  exact ⟨rfl, rfl⟩

theorem drawPixel_fill (s : AppState) (row col : Int)
    (htool : s.currentTool = Tool.fill)
    (hin : inBounds s.gridHeight s.gridWidth row col) :
    drawPixel s row col
      = saveState
          { s with
              grid := floodFill s.gridHeight s.gridWidth s.grid row col
                        (s.grid row col) s.currentColor
              colorHistory := addToColorHistory s.currentColor s.colorHistory } := by
  obtain ⟨h1, h2, h3, h4⟩ := hin
  rw [drawPixel, if_neg (by omega), htool]

theorem drawPixel_eyedropper (s : AppState) (row col : Int)
    (htool : s.currentTool = Tool.eyedropper)
    (hin : inBounds s.gridHeight s.gridWidth row col) :
    drawPixel s row col
      = { s with currentColor := s.grid row col, currentTool := Tool.pencil } := by
  obtain ⟨h1, h2, h3, h4⟩ := hin
  rw [drawPixel, if_neg (by omega), htool]

/-- C1: one pencil/eraser gesture (pointer-down, moves, pointer-up) records
exactly one history snapshot — the history grows by one entry holding the
final grid and the cursor advances by one — but a fill click records TWO
snapshots (one in `drawPixel`'s fill branch, one at pointer-up in
`stopDrawing`), so the history grows by two entries, not one. -/
theorem gesture_snapshots (s : AppState) (row col : Int)
    (moves : List (Int × Int))
    (hidx : s.historyIndex = (s.history.length : Int) - 1) :
    ((s.currentTool = Tool.pencil ∨ s.currentTool = Tool.eraser) →
      s.history.length + 1 ≤ MAX_HISTORY →
      (gesture s row col moves).history
          = s.history ++ [(gesture s row col moves).grid]
      ∧ (gesture s row col moves).historyIndex = s.historyIndex + 1)
    ∧ (s.currentTool = Tool.fill →
      inBounds s.gridHeight s.gridWidth row col →
      s.history.length + 2 ≤ MAX_HISTORY →
      (gesture s row col []).history.length = s.history.length + 2) := by
  constructor
  · intro htool hcap
    have hg : gesture s row col moves
        = stopDrawing (moves.foldl (fun st p => onMouseMoveDraw st p.1 p.2)
            (startDrawing s row col)) := rfl
    set s2 := moves.foldl (fun st p => onMouseMoveDraw st p.1 p.2)
      (startDrawing s row col)
    obtain ⟨d1, d2, d3, d4, d5⟩ := drawPixel_draw_preserves
      { s with isDrawing := true, lastDrawnPos := some (row, col) } row col htool
    obtain ⟨f1, f2, f3, f4⟩ := movesFold_preserves moves (startDrawing s row col)
      (show (startDrawing s row col).currentTool = Tool.pencil
          ∨ (startDrawing s row col).currentTool = Tool.eraser from
        (show (startDrawing s row col).currentTool = s.currentTool from d4) ▸ htool)
    have h2hist : s2.history = s.history := f1.trans d1
    have h2idx : s2.historyIndex = s.historyIndex := f2.trans d2
    have h2draw : s2.isDrawing = true :=
      f4 (show (startDrawing s row col).isDrawing = true from d3)
    obtain ⟨t1, t2, t3, t4, t5⟩ := stopDrawing_of_isDrawing s2 h2draw
    obtain ⟨g1, g2⟩ := saveState_grow s2
      (by rw [h2idx, h2hist]; exact hidx)
      (by rw [h2hist]; exact hcap)
    constructor
    · rw [hg, t1, g1, h2hist, t3]
    · rw [hg, t2, g2, h2idx]
  · intro htool hin hcap
    have hg : gesture s row col ([] : List (Int × Int))
        = stopDrawing (startDrawing s row col) := rfl
    have hstart : startDrawing s row col
        = saveState
            { s with
                isDrawing := true
                lastDrawnPos := some (row, col)
                grid := floodFill s.gridHeight s.gridWidth s.grid row col
                          (s.grid row col) s.currentColor
                colorHistory :=
                  addToColorHistory s.currentColor s.colorHistory } :=
      drawPixel_fill
        { s with isDrawing := true, lastDrawnPos := some (row, col) }
        row col htool hin
    set sA : AppState :=
      { s with
          isDrawing := true
          lastDrawnPos := some (row, col)
          grid := floodFill s.gridHeight s.gridWidth s.grid row col
                    (s.grid row col) s.currentColor
          colorHistory := addToColorHistory s.currentColor s.colorHistory }
    have hcap1 : s.history.length + 1 ≤ MAX_HISTORY := by
      simp only [MAX_HISTORY] at hcap ⊢; omega
    obtain ⟨gA1, gA2⟩ := saveState_grow sA hidx hcap1
    have hlen1 : (saveState sA).history.length = s.history.length + 1 := by
      rw [gA1]; simp
    have hdraw1 : (saveState sA).isDrawing = true := (saveState_preserves sA).1
    obtain ⟨u1, u2, u3, u4, u5⟩ :=
      stopDrawing_of_isDrawing (saveState sA) hdraw1
    obtain ⟨gB1, gB2⟩ := saveState_grow (saveState sA)
      (by rw [gA2, hlen1]; rw [show sA.historyIndex
            = (s.history.length : Int) - 1 from hidx]; push_cast; ring)
      (by rw [hlen1]; simp only [MAX_HISTORY] at hcap ⊢; omega)
    rw [hg, hstart, u1, gB1, List.length_append, hlen1]
    simp

/-- A single fill click does NOT grow the history by exactly one entry:
on a fresh 8x8 board it grows it by two. -/
theorem gesture_snapshots_cex :
    ¬ ((gesture fillClickState 1 1 []).history.length
        = fillClickState.history.length + 1) := by decide

theorem gesture_snapshots_witness :
    ((gesture (initializeGrid 8 8) 1 1 [(1, 2)]).history.length
        = (initializeGrid 8 8).history.length + 1)
    ∧ ((gesture fillClickState 1 1 []).history.length
        = fillClickState.history.length + 2) := by
  constructor
  · have h := (gesture_snapshots (initializeGrid 8 8) 1 1 [(1, 2)]
      (by decide)).1 (Or.inl (by decide)) (by decide)
    rw [h.1]
    simp
  · exact (gesture_snapshots fillClickState 1 1 []
      (by decide)).2 (by decide) (by decide) (by decide)

/-- C2: an in-range eyedropper pick sets the active color to the clicked
cell's color and switches the tool back to the pencil, changing nothing
else in the state (grid, history, cursor all untouched) — but the full
click gesture still records one (duplicate) history snapshot at
pointer-up, because `startDrawing` raises `isDrawing` before `drawPixel`
dispatches on the tool. -/
theorem eyedropper_spec (s : AppState) (row col : Int)
    (htool : s.currentTool = Tool.eyedropper)
    (hin : inBounds s.gridHeight s.gridWidth row col)
    (hidx : s.historyIndex = (s.history.length : Int) - 1)
    (hcap : s.history.length + 1 ≤ MAX_HISTORY) :
    drawPixel s row col
        = { s with currentColor := s.grid row col, currentTool := Tool.pencil }
    ∧ (gesture s row col []).grid = s.grid
    ∧ (gesture s row col []).currentColor = s.grid row col
    ∧ (gesture s row col []).currentTool = Tool.pencil
    ∧ (gesture s row col []).history = s.history ++ [s.grid] := by
  refine ⟨drawPixel_eyedropper s row col htool hin, ?_⟩
  have hg : gesture s row col ([] : List (Int × Int))
      = stopDrawing (startDrawing s row col) := rfl
  have hstart : startDrawing s row col
      = { s with
            isDrawing := true
            lastDrawnPos := some (row, col)
            currentColor := s.grid row col
            currentTool := Tool.pencil } :=
    drawPixel_eyedropper
      { s with isDrawing := true, lastDrawnPos := some (row, col) }
      row col htool hin
  set s1 : AppState :=
    { s with
        isDrawing := true
        lastDrawnPos := some (row, col)
        currentColor := s.grid row col
        currentTool := Tool.pencil }
  obtain ⟨t1, t2, t3, t4, t5⟩ := stopDrawing_of_isDrawing s1 rfl
  obtain ⟨g1, g2⟩ := saveState_grow s1 hidx hcap
  refine ⟨?_, ?_, ?_, ?_⟩
  · rw [hg, hstart, t3]
  · rw [hg, hstart, t4]
  · rw [hg, hstart, t5]
  · rw [hg, hstart, t1, g1]

/-- The eyedropper click gesture does add an entry to the history stack. -/
theorem eyedropper_spec_cex :
    ¬ ((gesture eyedropperClickState 0 0 []).history.length
        = eyedropperClickState.history.length) := by decide

theorem eyedropper_spec_witness :
    (gesture eyedropperClickState 0 0 []).grid = eyedropperClickState.grid
    ∧ (gesture eyedropperClickState 0 0 []).currentTool = Tool.pencil := by
  have h := eyedropper_spec eyedropperClickState 0 0
    (by decide) (by decide) (by decide) (by decide)
  exact ⟨h.2.1, h.2.2.2.1⟩

/-- C3: flood filling with a replacement color equal to the target color
leaves every grid cell unchanged (for every fuel, so for `floodFill`
itself) — but the click is still recorded: `drawPixel`'s fill branch
saves a snapshot of the unchanged grid unconditionally. -/
theorem noop_fill_spec (s : AppState) (row col : Int)
    (htool : s.currentTool = Tool.fill)
    (hin : inBounds s.gridHeight s.gridWidth row col)
    (hc : s.currentColor = s.grid row col)
    (hidx : s.historyIndex = (s.history.length : Int) - 1)
    (hcap : s.history.length + 1 ≤ MAX_HISTORY) :
    (∀ (H W : Int) (fuel : Nat) (g : PixGrid) (r c : Int) (t : Color),
        floodFillFuel H W fuel g r c t t = g)
    ∧ (drawPixel s row col).grid = s.grid
    ∧ (drawPixel s row col).history = s.history ++ [s.grid]
    ∧ (drawPixel s row col).historyIndex = s.historyIndex + 1 := by
  have hnoop : ∀ (H W : Int) (fuel : Nat) (g : PixGrid) (r c : Int) (t : Color),
      floodFillFuel H W fuel g r c t t = g := by
    intro H W fuel g r c t
    cases fuel with
    | zero => rfl
    | succ n =>
      conv_lhs => rw [floodFillFuel]
      rw [if_pos rfl]
  have hfillgrid : floodFill s.gridHeight s.gridWidth s.grid row col
      (s.grid row col) s.currentColor = s.grid := by
    rw [hc, floodFill, hnoop]
  have hdp := drawPixel_fill s row col htool hin
  set sA : AppState :=
    { s with
        grid := floodFill s.gridHeight s.gridWidth s.grid row col
                  (s.grid row col) s.currentColor
        colorHistory := addToColorHistory s.currentColor s.colorHistory }
  have hAgrid : sA.grid = s.grid := hfillgrid
  obtain ⟨g1, g2⟩ := saveState_grow sA hidx hcap
  refine ⟨hnoop, ?_, ?_, ?_⟩
  · rw [hdp, (saveState_preserves sA).2.2.1, hAgrid]
  · rw [hdp, g1, hAgrid]
  · rw [hdp, g2]

/-- The no-op fill click does record a history entry. -/
theorem noop_fill_spec_cex :
    ¬ ((drawPixel noopFillState 0 0).history.length
        = noopFillState.history.length) := by decide

theorem noop_fill_spec_witness :
    (drawPixel noopFillState 0 0).grid = noopFillState.grid
    ∧ (drawPixel noopFillState 0 0).history.length
        = noopFillState.history.length + 1 := by
  have h := noop_fill_spec noopFillState 0 0
    (by decide) (by decide) (by decide) (by decide) (by decide)
  refine ⟨h.2.1, ?_⟩
  rw [h.2.2.1]
  simp

end Pixlet
